import Mathlib

/-!
# Orb anchor observer and stores

A shallow embedding of

* `pkg/store/operation/unpublished/store.go` (`Unpublished`),
* `pkg/store/vcstatus/store.go` (`Vcstatus`),
* `pkg/observer/observer.go` (`Observer`),
* `pkg/resolver/document/resolvehandler.go` (`Document`),

together with the properties of these programs that were checked against
their prose specification.

Go `string` and `[]byte` values are both modelled by `String`.  Collaborators
that the programs reach only through an interface (the storage provider, the
anchor graph, the protocol client, the outbox, the clock) are not fixed: their
behaviour is a parameter of every definition that calls them.
-/

namespace Orb

/-! ## Errors -/

/-- A Go `error` value.  `leaf` is an error without a cause (`errors.New`,
`fmt.Errorf` without `%w`, or an error of a foreign library), `wrap` is
`fmt.Errorf("...: %w", cause)`, `transient` is the marker that
`orberrors.NewTransient` puts around its argument and `dataNotFound` is the
sentinel `storage.ErrDataNotFound`. -/
inductive Err where
  | leaf (text : String)
  | wrap (text : String) (cause : Err)
  | transient (cause : Err)
  | dataNotFound
  deriving DecidableEq, Repr

/-- Modelled from the spec: `pkg/errors` is not among the sources.
`NewTransient` marks an error as transient (retryable). -/
def NewTransient (e : Err) : Err := Err.transient e

/-- Modelled from the spec: `pkg/errors` is not among the sources.
`IsTransient` reports whether an error was "explicitly marked transient": the
marker is looked for along the chain of causes, the way Go's `errors.As` does,
so that wrapping a transient error with `%w` keeps it transient. -/
def IsTransient : Err → Bool
  | Err.leaf _ => false
  | Err.wrap _ cause => IsTransient cause
  | Err.transient _ => true
  | Err.dataNotFound => false

/-- Go's `errors.Is(err, storage.ErrDataNotFound)`: the sentinel is looked for along
the chain of causes. -/
def isDataNotFound : Err → Bool
  | Err.leaf _ => false
  | Err.wrap _ cause => isDataNotFound cause
  | Err.transient cause => isDataNotFound cause
  | Err.dataNotFound => true

/-- The method `Error()`: the text of an error.  A wrapped error shows its own text, a
colon and the text of its cause; the transient marker shows the text of the error it
marks. -/
def Err.Error : Err → String
  | Err.leaf text => text
  | Err.wrap text cause => text ++ ": " ++ Err.Error cause
  | Err.transient cause => Err.Error cause
  | Err.dataNotFound => "data not found"

/-! ## The underlying storage provider -/

/-- A byte string (`[]byte`). -/
abbrev Bytes := String

namespace Storage

/-- A `storage.Tag`. -/
structure Tag where
  name : String
  value : String
  deriving DecidableEq, Repr

/-- One key/value pair of the underlying store, with its tags. -/
structure Record where
  key : String
  value : Bytes
  tags : List Tag
  deriving DecidableEq, Repr

/-- A mutating call issued to the underlying store. -/
inductive Write where
  | put (key : String) (value : Bytes) (tags : List Tag)
  | delete (key : String)
  | batch (keys : List String)
  deriving DecidableEq, Repr

/-- What the storage provider does during one call of a store method and that the
calling code does not control: the failures it reports (`none` is "no failure")
and the order in which a query iterates over its results.  `next i` is the outcome
of the `i`-th call of `Next()` on an iterator (counted from 0) and `value i` the
outcome of `Value()` on the `i`-th result. -/
structure Env where
  get : String → Option Err
  put : String → Option Err
  delete : String → Option Err
  batch : List String → Option Err
  query : String → Option Err
  next : Nat → Option Err
  value : Nat → Option Err
  order : List Bytes → List Bytes

/-- A provider that reports no failure and iterates in storage order. -/
def Env.reliable : Env where
  get := fun _ => none
  put := fun _ => none
  delete := fun _ => none
  batch := fun _ => none
  query := fun _ => none
  next := fun _ => none
  value := fun _ => none
  order := fun l => l

/-- State of a `storage.Store`: the stored records and the log of the mutating
calls it has received (whether or not they succeeded). -/
structure Store where
  records : List Record
  writes : List Write
  deriving DecidableEq, Repr

/-- The empty store. -/
def Store.empty : Store := ⟨[], []⟩

/-- Value stored under a key. -/
def lookup (k : String) : List Record → Option Bytes
  | [] => none
  | r :: rs => if r.key = k then some r.value else lookup k rs

/-- Insert or replace the record stored under the key of `r`. -/
def upsert (r : Record) : List Record → List Record
  | [] => [r]
  | x :: xs => if x.key = r.key then r :: xs else x :: upsert r xs

/-- Remove the record stored under a key. -/
def erase (k : String) (rs : List Record) : List Record :=
  rs.filter (fun r => r.key ≠ k)

/-- The call `store.Get(k)`: an empty key is refused, an absent key is reported as
`ErrDataNotFound`. -/
def Store.get (env : Env) (s : Store) (k : String) : Except Err Bytes :=
  if k = "" then Except.error (Err.leaf "key is mandatory")
  else match env.get k with
    | some e => Except.error e
    | none =>
      match lookup k s.records with
      | some v => Except.ok v
      | none => Except.error Err.dataNotFound

/-- The call `store.Put(k, v, tags...)`: an empty key is refused; a failed call
changes no record. -/
def Store.put (env : Env) (s : Store) (k : String) (v : Bytes) (tags : List Tag) :
    Option Err × Store :=
  let logged := s.writes ++ [Write.put k v tags]
  if k = "" then (some (Err.leaf "key is mandatory"), { s with writes := logged })
  else match env.put k with
    | some e => (some e, { s with writes := logged })
    | none => (none, { records := upsert ⟨k, v, tags⟩ s.records, writes := logged })

/-- The call `store.Delete(k)`: an empty key is refused, deleting an absent key is not
an error. -/
def Store.delete (env : Env) (s : Store) (k : String) : Option Err × Store :=
  let logged := s.writes ++ [Write.delete k]
  if k = "" then (some (Err.leaf "key is mandatory"), { s with writes := logged })
  else match env.delete k with
    | some e => (some e, { s with writes := logged })
    | none => (none, { records := erase k s.records, writes := logged })

/-- The call `store.Batch(ops)` where every operation has a key and a nil value, that
is, deletes its key. -/
def Store.batch (env : Env) (s : Store) (keys : List String) : Option Err × Store :=
  let logged := s.writes ++ [Write.batch keys]
  match env.batch keys with
  | some e => (some e, { s with writes := logged })
  | none => (none, { records := keys.foldl (fun rs k => erase k rs) s.records, writes := logged })

/-- Values of the records carrying a tag that the query expression `name:value`
selects, in storage order. -/
def matching (expr : String) (rs : List Record) : List Bytes :=
  (rs.filter (fun r => r.tags.any (fun t => t.name ++ ":" ++ t.value = expr))).map
    (fun r => r.value)

/-- The call `store.Query(expr)`: the values the iterator will visit, in the order
chosen by the provider. -/
def Store.query (env : Env) (s : Store) (expr : String) : Except Err (List Bytes) :=
  match env.query expr with
  | some e => Except.error e
  | none => Except.ok (env.order (matching expr s.records))

end Storage

/-! ## Unpublished operation store -/

namespace Unpublished

/-- The fields of `operation.AnchoredOperation`. -/
structure AnchoredOperation where
  type : String
  uniqueSuffix : String
  operationRequest : Bytes
  transactionTime : Nat
  transactionNumber : Nat
  protocolVersion : Nat
  canonicalReference : String
  equivalentReferences : List String
  anchorOrigin : String
  deriving DecidableEq, Repr

/-- The functions `json.Marshal` and `json.Unmarshal` at type `AnchoredOperation`.  Their
errors belong to `encoding/json`; only the message is kept. -/
structure Codec where
  marshal : AnchoredOperation → Except String Bytes
  unmarshal : Bytes → Except String AnchoredOperation

/-- The type `Store`: storage for unpublished operations. -/
structure Store where
  store : Storage.Store
  deriving DecidableEq, Repr

/-- The method `Store.Get`: retrieves the unpublished operation of a suffix. -/
def Store.Get (c : Codec) (env : Storage.Env) (s : Store) (suffix : String) :
    Except Err AnchoredOperation :=
  match s.store.get env suffix with
  | Except.error err => Except.error err
  | Except.ok opBytes =>
    match c.unmarshal opBytes with
    | Except.error err =>
      Except.error (Err.wrap
        ("failed to unmarshal unpublished operation for suffix[" ++ suffix ++ "]") (Err.leaf err))
    | Except.ok op => Except.ok op

/-- The method `Store.Put`: saves an unpublished operation; if one already exists an error
is returned. -/
def Store.Put (c : Codec) (env : Storage.Env) (s : Store) (op : AnchoredOperation) :
    Option Err × Store :=
  if op.uniqueSuffix = "" then
    (some (Err.leaf "failed to save unpublished operation: suffix is empty"), s)
  else
    match s.Get c env op.uniqueSuffix with
    | Except.ok _ =>
      (some (Err.leaf ("pending operation found for suffix[" ++ op.uniqueSuffix
        ++ "], please re-submit your operation request at later time")), s)
    | Except.error err =>
      if !isDataNotFound err then
        (some (Err.wrap ("unable to check for pending operations for suffix[" ++ op.uniqueSuffix
          ++ "], please re-submit your operation request at later time") err), s)
      else
        match c.marshal op with
        | Except.error err =>
          (some (Err.wrap "failed to marshal unpublished operation" (Err.leaf err)), s)
        | Except.ok opBytes =>
          match s.store.put env op.uniqueSuffix opBytes [] with
          | (some e, store) =>
            (some (Err.wrap ("failed to put unpublished operation for suffix["
              ++ op.uniqueSuffix ++ "]") e), { store := store })
          | (none, store) => (none, { store := store })

/-- The method `Store.Delete`: deletes the unpublished operation of a suffix. -/
def Store.Delete (env : Storage.Env) (s : Store) (suffix : String) : Option Err × Store :=
  match s.store.delete env suffix with
  | (some err, store) =>
    (some (Err.wrap ("failed to delete unpublished operation for suffix[" ++ suffix ++ "]") err),
      { store := store })
  | (none, store) => (none, { store := store })

/-- The method `Store.DeleteAll`: deletes the operations of all the suffixes in one batch. -/
def Store.DeleteAll (env : Storage.Env) (s : Store) (suffixes : List String) :
    Option Err × Store :=
  if suffixes.length = 0 then (none, s)
  else
    match s.store.batch env suffixes with
    | (some err, store) =>
      (some (NewTransient (Err.wrap "failed to delete unpublished operations" err)),
        { store := store })
    | (none, store) => (none, { store := store })

end Unpublished

/-! ## VC-status store -/

/-- Modelled from the spec: the type `proof.VCStatus` (`pkg/anchor/proof`) is not among
the sources.  A status is a string. -/
abbrev VCStatus := String

/-- Modelled from the spec: the status value "Completed" of `pkg/anchor/proof`.  The text of
the constant is not visible in the sources; nothing depends on it. -/
def VCStatusCompleted : VCStatus := "completed"

/-- Modelled from the spec: the status value of a credential whose proofs are still being
collected. -/
def VCStatusInProcess : VCStatus := "in-process"

namespace Base64

/-- The alphabet of the URL-safe base64 encoding. -/
def alphabet : List Char :=
  "ABCDEFGHIJKLMNOPQRSTUVWXYZabcdefghijklmnopqrstuvwxyz0123456789-_".data

/-- The character that encodes a 6-bit value. -/
def digit (n : Nat) : Char := alphabet.getD n 'A'

/-- UTF-8 encoding of a code point: the bytes of a one-character Go string. -/
def utf8EncodeChar (n : Nat) : List Nat :=
  if n < 0x80 then [n]
  else if n < 0x800 then [0xC0 + n / 64, 0x80 + n % 64]
  else if n < 0x10000 then [0xE0 + n / 4096, 0x80 + n / 64 % 64, 0x80 + n % 64]
  else [0xF0 + n / 262144, 0x80 + n / 4096 % 64, 0x80 + n / 64 % 64, 0x80 + n % 64]

/-- The conversion `[]byte(s)`. -/
def bytes (s : String) : List Nat :=
  s.data.flatMap (fun c => utf8EncodeChar c.toNat)

/-- Unpadded base64 of a byte sequence: three bytes give four digits, a final group of
one or two bytes gives two or three digits. -/
def encode : List Nat → List Char
  | [] => []
  | [a] => [digit (a / 4), digit (a % 4 * 16)]
  | [a, b] => [digit (a / 4), digit (a % 4 * 16 + b / 16), digit (b % 16 * 4)]
  | a :: b :: c :: rest =>
    digit (a / 4) :: digit (a % 4 * 16 + b / 16) :: digit (b % 16 * 4 + c / 64)
      :: digit (c % 64) :: encode rest

/-- The call `base64.RawURLEncoding.EncodeToString([]byte(s))`. -/
def rawURLEncodeToString (s : String) : String :=
  String.mk (encode (bytes s))

end Base64

namespace Vcstatus

/-- The constant `index`: name of the tag under which status events are indexed. -/
def index : String := "vcID"

/-- The type `Store`: the underlying store and the two (replaceable) serialisation
functions.  `unmarshal data v` receives the current content `v` of the variable it
decodes into and returns its new content. -/
structure Store where
  store : Storage.Store
  marshal : VCStatus → Except Err Bytes
  unmarshal : Bytes → VCStatus → Except Err VCStatus

/-- The method `Store.AddStatus`: adds a proof-collecting status event for a credential.
`uuid` is the value drawn by `uuid.New().String()`. -/
def Store.AddStatus (s : Store) (env : Storage.Env) (uuid : String) (vcID : String)
    (status : VCStatus) : Option Err × Store :=
  let vcIDEncoded := Base64.rawURLEncodeToString vcID
  let tag : Storage.Tag := { name := index, value := vcIDEncoded }
  match s.marshal status with
  | Except.error err => (some (Err.wrap "marshal" err), s)
  | Except.ok statusBytes =>
    match s.store.put env uuid statusBytes [tag] with
    | (some err, store) =>
      (some (NewTransient (Err.wrap
        ("failed to store vcID[" ++ vcID ++ "] status [" ++ status ++ "]") err)),
        { s with store := store })
    | (none, store) => (none, { s with store := store })

/-- The loop `for ok` of `Store.GetStatus`, entered with the iterator standing on the
`i`-th result; the list holds that result and those still to come, `status` is the
current content of the variable `status`. -/
def Store.scan (s : Store) (env : Storage.Env) (vcID : String) :
    List Bytes → Nat → VCStatus → Except Err VCStatus
  | [], _, status => Except.ok status
  | value :: rest, i, status =>
    match env.value i with
    | some err =>
      Except.error (NewTransient (Err.wrap
        ("failed to get iterator value for vcID[" ++ vcID ++ "]") err))
    | none =>
      match s.unmarshal value status with
      | Except.error err => Except.error (Err.wrap "unmarshal status" err)
      | Except.ok status =>
        if status = VCStatusCompleted then Except.ok VCStatusCompleted
        else
          match env.next (i + 1) with
          | some err =>
            Except.error (NewTransient (Err.wrap ("iterator error for vcID[" ++ vcID ++ "]") err))
          | none => Store.scan s env vcID rest (i + 1) status

/-- The method `Store.GetStatus`: retrieves the proof-collection status of a credential. -/
def Store.GetStatus (s : Store) (env : Storage.Env) (vcID : String) : Except Err VCStatus :=
  let vcIDEncoded := Base64.rawURLEncodeToString vcID
  let query := index ++ ":" ++ vcIDEncoded
  match s.store.query env query with
  | Except.error err =>
    Except.error (NewTransient (Err.wrap
      ("failed to get statuses for vcID[" ++ vcID ++ "] query[" ++ query ++ "]") err))
  | Except.ok results =>
    match env.next 0 with
    | some err =>
      Except.error (NewTransient (Err.wrap
        ("iterator error for vcID[" ++ vcID ++ "] statuses") err))
    | none =>
      match results with
      | [] => Except.error (Err.leaf ("status not found for vcID: " ++ vcID))
      | value :: rest => s.scan env vcID (value :: rest) 0 ""

end Vcstatus

/-! ## Observer -/


/-- Modelled from the spec: the type `anchorinfo.AnchorInfo` (`pkg/anchor/info`) is not
among the sources.  A reference to an anchor: its hashlink, the optional local alias of the
same content and the optional identity of its originator. -/
structure AnchorInfo where
  hashlink : String
  localHashlink : String
  attributedTo : String
  deriving DecidableEq, Repr

/-- A Go `map[string]string`: no key occurs twice.  The order of the entries stands
for the order in which the `range` loop of `getKeys` visits them in the run that decoded
this map; Go chooses that order anew at every loop, so a later run is given a map with the
same entries in any order (`Lib.Redelivers`). -/
structure StringMap where
  entries : List (String × String)
  nodup : (entries.map Prod.fst).Nodup

/-- Modelled from the spec: the type of the decoded subject of an anchor credential
(`AnchorPayload`, returned by `util.GetAnchorSubject`) is not among the sources. -/
structure AnchorPayload where
  operationCount : Nat
  coreIndex : String
  nameSpace : String
  version : Nat
  previousAnchors : StringMap

/-- The parts of a `verifiable.Credential` that the observer reads: the issuance
instant (Unix seconds, an `int64`) and the credential subject.  The observer reads
`Issued` unconditionally, so only credentials that carry one are modelled. -/
structure Credential where
  issued : Int
  subject : String
  deriving DecidableEq, Repr

/-- Modelled from the spec: the type `graph.Anchor` (`pkg/anchor/graph`) is not among the
sources.  An anchor returned by `GetDidAnchors`: its content address and its credential. -/
structure Anchor where
  cid : String
  info : Credential
  deriving DecidableEq, Repr

/-- The fields of `txnapi.SidetreeTxn` that the observer sets. -/
structure SidetreeTxn where
  transactionTime : Nat
  anchorString : String
  nameSpace : String
  protocolGenesisTime : Nat
  canonicalReference : String
  equivalentReferences : List String
  deriving DecidableEq, Repr

/-- A parsed `url.URL`. -/
structure URL where
  text : String
  deriving DecidableEq, Repr

/-- Modelled from the spec: `pkg/activitypub/vocab` is not among the sources.  A "Like"
activity: the anchor reference it likes, its recipients, its publication time and the
optional secondary "result" anchor reference. -/
structure LikeActivity where
  object : URL
  recipients : List URL
  published : Int
  result : Option URL
  deriving DecidableEq, Repr

/-- Modelled from the spec: the constant `vocab.PublicIRI`, the public audience. -/
def PublicIRI : URL := ⟨"https://www.w3.org/ns/activitystreams#Public"⟩

/-- A call made to a provider, with its outcome (`none` is success). -/
inductive Effect where
  | read (cid : String) (err : Option Err)
  | getDidAnchors (cid suffix : String) (err : Option Err)
  | process (txn : SidetreeTxn) (suffixes : List String) (err : Option Err)
  | putBulk (dids : List String) (cid : String) (err : Option Err)
  | post (activity : LikeActivity) (err : Option Err)
  | processAnchorTime (value : Int)
  | processDIDTime (value : Int)
  deriving DecidableEq, Repr

/-- The struct `Providers` (without the message queue): the behaviour of the
collaborators, each a function of the collaborators' joint state `σ`.  `forNamespace`
returns a handle of a protocol client, `getVersion` is `Get` on that client and returns
a handle of a protocol version, `process` is `TransactionProcessor().Process` on that
version, `post` is `Outbox().Post`. -/
structure Providers (σ : Type) where
  forNamespace : String → σ → Except Err Nat × σ
  getVersion : Nat → Nat → σ → Except Err Nat × σ
  process : Nat → SidetreeTxn → List String → σ → Option Err × σ
  read : String → σ → Except Err Credential × σ
  getDidAnchors : String → String → σ → Except Err (List Anchor) × σ
  putBulk : List String → String → σ → Option Err × σ
  post : LikeActivity → σ → Option Err × σ
  processAnchorTime : Int → σ → σ
  processDIDTime : Int → σ → σ

/-- Functions of other packages that the observer calls: `time.Now` (in nanoseconds),
`util.GetAnchorSubject`, `hashlink.GetResourceHashFromHashLink`,
`util.AnchorData.GetAnchorString` and `url.Parse`. -/
structure Lib (σ : Type) where
  now : σ → Int × σ
  getAnchorSubject : Credential → Except Err AnchorPayload
  getResourceHashFromHashLink : String → Except Err String
  getAnchorString : Nat → String → String
  parse : String → Except Err URL

/-- The struct `Observer`. -/
structure Observer (σ : Type) where
  providers : Providers σ
  discoveryDomain : String

/-- The option `WithDiscoveryDomain`: sets the optional discovery domain hint. -/
def WithDiscoveryDomain {σ : Type} (domain : String) (opts : Observer σ) : Observer σ :=
  { opts with discoveryDomain := domain }

/-- State of the collaborators together with the calls made to them so far, oldest
first. -/
structure World (σ : Type) where
  st : σ
  trace : List Effect

/-- The function `getKeys`: the keys of a map. -/
def getKeys (m : StringMap) : List String :=
  m.entries.map Prod.fst

/-- Position of the last occurrence of a character (`strings.LastIndex` for a separator
of one ASCII character), `none` for Go's `-1`. -/
def lastIndex (c : Char) : List Char → Option Nat
  | [] => none
  | x :: xs =>
    match lastIndex c xs with
    | some i => some (i + 1)
    | none => if x = c then some 0 else none

/-- The function `getDidParts`: splits a DID at its last delimiter.  The delimiter is one
ASCII character, so the byte position that Go slices at and the character position used
here cut the text at the same place. -/
def getDidParts (did : String) : Except Err (String × String) :=
  match lastIndex ':' did.data with
  | none => Except.error (Err.leaf ("invalid number of parts for did[" ++ did ++ "]"))
  | some pos => Except.ok (String.mk (did.data.take pos), String.mk (did.data.drop (pos + 1)))

/-- The method `Observer.postLikeActivity`: posts a "Like" activity to the originator of
the anchor credential. -/
def Observer.postLikeActivity {σ : Type} (lib : Lib σ) (o : Observer σ) (anchor : AnchorInfo)
    (w : World σ) : Option Err × World σ :=
  if anchor.attributedTo = "" then (none, w)
  else
    match lib.parse anchor.hashlink with
    | Except.error err =>
      (some (Err.wrap ("parse hash link [" ++ anchor.hashlink ++ "]") err), w)
    | Except.ok refURL =>
      match lib.parse anchor.attributedTo with
      | Except.error err =>
        (some (Err.wrap ("parse origin [" ++ anchor.attributedTo ++ "]") err), w)
      | Except.ok attributedTo =>
        match lib.now w.st with
        | (publishedTime, st1) =>
          let send (result : Option URL) : Option Err × World σ :=
            let like : LikeActivity :=
              { object := refURL, recipients := [attributedTo, PublicIRI],
                published := publishedTime, result := result }
            match o.providers.post like st1 with
            | (some err, st2) =>
              (some (Err.wrap "post like" err),
                { st := st2, trace := w.trace ++ [Effect.post like (some err)] })
            | (none, st2) => (none, { st := st2, trace := w.trace ++ [Effect.post like none] })
          if anchor.localHashlink ≠ "" then
            match lib.parse anchor.localHashlink with
            | Except.error e =>
              (some (Err.wrap ("parse local hashlink [" ++ anchor.localHashlink ++ "]") e),
                { w with st := st1 })
            | Except.ok u => send (some u)
          else send none

/-- The method `Observer.processAnchor`. -/
def Observer.processAnchor {σ : Type} (lib : Lib σ) (o : Observer σ) (anchor : AnchorInfo)
    (info : Credential) (suffixes : List String) (w : World σ) : Option Err × World σ :=
  match lib.getAnchorSubject info with
  | Except.error err =>
    (some (Err.wrap ("failed to extract anchor payload from anchor[" ++ anchor.hashlink ++ "]")
      err), w)
  | Except.ok anchorPayload =>
    match o.providers.forNamespace anchorPayload.nameSpace w.st with
    | (Except.error err, st1) =>
      (some (Err.wrap ("failed to get protocol client for namespace ["
        ++ anchorPayload.nameSpace ++ "]") err), { w with st := st1 })
    | (Except.ok pc, st1) =>
      match o.providers.getVersion pc anchorPayload.version st1 with
      | (Except.error err, st2) =>
        (some (Err.wrap ("failed to get protocol version for transaction time ["
          ++ toString anchorPayload.version ++ "]") err), { w with st := st2 })
      | (Except.ok v, st2) =>
        match lib.getResourceHashFromHashLink anchor.hashlink with
        | Except.error err =>
          (some (Err.wrap ("failed to get canonical ID from hl[" ++ anchor.hashlink ++ "]") err),
            { w with st := st2 })
        | Except.ok canonicalID =>
          let equivalentRefs :=
            if o.discoveryDomain ≠ "" then
              [anchor.hashlink] ++ ["https:" ++ o.discoveryDomain ++ ":" ++ canonicalID]
            else [anchor.hashlink]
          let sidetreeTxn : SidetreeTxn :=
            { transactionTime := (info.issued % 2 ^ 64).toNat
              anchorString := lib.getAnchorString anchorPayload.operationCount
                anchorPayload.coreIndex
              nameSpace := anchorPayload.nameSpace
              protocolGenesisTime := anchorPayload.version
              canonicalReference := canonicalID
              equivalentReferences := equivalentRefs }
          match o.providers.process v sidetreeTxn suffixes st2 with
          | (some err, st3) =>
            (some (Err.wrap ("failed to processAnchors core index[" ++ anchorPayload.coreIndex
              ++ "]") err),
              { st := st3, trace := w.trace ++ [Effect.process sidetreeTxn suffixes (some err)] })
          | (none, st3) =>
            let acSuffixes := getKeys anchorPayload.previousAnchors
            match o.providers.putBulk acSuffixes anchor.hashlink st3 with
            | (some err, st4) =>
              (some (Err.wrap ("failed updating did anchor references for anchor credential["
                ++ anchor.hashlink ++ "]") err),
                { st := st4
                  trace := w.trace ++ [Effect.process sidetreeTxn suffixes none,
                    Effect.putBulk acSuffixes anchor.hashlink (some err)] })
            | (none, st4) =>
              match o.postLikeActivity lib anchor
                { st := st4
                  trace := w.trace ++ [Effect.process sidetreeTxn suffixes none,
                    Effect.putBulk acSuffixes anchor.hashlink none] } with
              | (_, w5) => (none, w5)

/-- The method `Observer.handleAnchor`.  The argument of the deferred call
`o.Metrics.ProcessAnchorTime(time.Since(startTime))` is evaluated when the `defer`
statement is executed; the call itself is made when the method returns. -/
def Observer.handleAnchor {σ : Type} (lib : Lib σ) (o : Observer σ) (anchor : AnchorInfo)
    (w : World σ) : Option Err × World σ :=
  match lib.now w.st with
  | (startTime, st1) =>
    match lib.now st1 with
    | (t, st2) =>
      let elapsed := t - startTime
      let finish (r : Option Err × World σ) : Option Err × World σ :=
        (r.1, { st := o.providers.processAnchorTime elapsed r.2.st
                trace := r.2.trace ++ [Effect.processAnchorTime elapsed] })
      match o.providers.read anchor.hashlink st2 with
      | (Except.error err, st3) =>
        finish (some err, { st := st3, trace := w.trace ++ [Effect.read anchor.hashlink (some err)] })
      | (Except.ok anchorInfo, st3) =>
        match o.processAnchor lib anchor anchorInfo []
          { st := st3, trace := w.trace ++ [Effect.read anchor.hashlink none] } with
        | (some err, w4) => finish (some err, w4)
        | (none, w4) => finish (none, w4)

/-- The loop over the anchors of `Observer.processDID`. -/
def Observer.processDIDAnchors {σ : Type} (lib : Lib σ) (o : Observer σ) (suffix : String) :
    List Anchor → World σ → Option Err × World σ
  | [], w => (none, w)
  | anchor :: rest, w =>
    match o.processAnchor lib { hashlink := anchor.cid, localHashlink := "", attributedTo := "" }
      anchor.info [suffix] w with
    | (some err, w1) =>
      if IsTransient err then
        (some (Err.wrap ("process out-of-system anchor [" ++ anchor.cid ++ "]") err), w1)
      else Observer.processDIDAnchors lib o suffix rest w1
    | (none, w1) => Observer.processDIDAnchors lib o suffix rest w1

/-- The method `Observer.processDID`.  The deferred function reads the clock and reports
the metric when the method returns. -/
def Observer.processDID {σ : Type} (lib : Lib σ) (o : Observer σ) (did : String) (w : World σ) :
    Option Err × World σ :=
  match lib.now w.st with
  | (startTime, st1) =>
    let finish (r : Option Err × World σ) : Option Err × World σ :=
      match lib.now r.2.st with
      | (t, st) =>
        (r.1, { st := o.providers.processDIDTime (t - startTime) st
                trace := r.2.trace ++ [Effect.processDIDTime (t - startTime)] })
    match getDidParts did with
    | Except.error err => finish (some err, { w with st := st1 })
    | Except.ok (cidWithHint, suffix) =>
      match o.providers.getDidAnchors cidWithHint suffix st1 with
      | (Except.error err, st2) =>
        finish (some err,
          { st := st2, trace := w.trace ++ [Effect.getDidAnchors cidWithHint suffix (some err)] })
      | (Except.ok anchors, st2) =>
        finish (o.processDIDAnchors lib suffix anchors
          { st := st2, trace := w.trace ++ [Effect.getDidAnchors cidWithHint suffix none] })

/-! ## Runs of the observer -/

/-- Whether an effect is a call of `DidAnchors.PutBulk`. -/
def Effect.isPutBulk : Effect → Bool
  | Effect.putBulk _ _ _ => true
  | _ => false

/-- Whether an effect is a call of `Outbox.Post`. -/
def Effect.isPost : Effect → Bool
  | Effect.post _ _ => true
  | _ => false

/-- Whether an effect is a call of the transaction processor. -/
def Effect.isProcess : Effect → Bool
  | Effect.process _ _ _ => true
  | _ => false

/-- The `anchorinfo.AnchorInfo` that `processDID` builds for an anchor of the graph. -/
def Anchor.toInfo (anchor : Anchor) : AnchorInfo :=
  { hashlink := anchor.cid, localHashlink := "", attributedTo := "" }

/-- The steps of `processAnchor` that come before the transaction processor all succeed:
the subject decodes to `payload`, the protocol version `v` is resolved (leaving the
collaborators in state `st`), the content address of the hashlink is computed, and `txn`
is the transaction then built. -/
def Observer.Submits {σ : Type} (lib : Lib σ) (o : Observer σ) (anchor : AnchorInfo)
    (info : Credential) (w : World σ) (payload : AnchorPayload) (txn : SidetreeTxn)
    (v : Nat) (st : σ) : Prop :=
  ∃ (pc : Nat) (st1 : σ) (canonicalID : String),
    lib.getAnchorSubject info = Except.ok payload ∧
    o.providers.forNamespace payload.nameSpace w.st = (Except.ok pc, st1) ∧
    o.providers.getVersion pc payload.version st1 = (Except.ok v, st) ∧
    lib.getResourceHashFromHashLink anchor.hashlink = Except.ok canonicalID ∧
    txn =
      { transactionTime := (info.issued % 2 ^ 64).toNat
        anchorString := lib.getAnchorString payload.operationCount payload.coreIndex
        nameSpace := payload.nameSpace
        protocolGenesisTime := payload.version
        canonicalReference := canonicalID
        equivalentReferences :=
          if o.discoveryDomain ≠ "" then
            [anchor.hashlink] ++ ["https:" ++ o.discoveryDomain ++ ":" ++ canonicalID]
          else [anchor.hashlink] }

/-- The world after `processAnchor` was run on each anchor of a list in turn, the way
`processDID` runs it, whatever the outcomes. -/
def Observer.runAll {σ : Type} (lib : Lib σ) (o : Observer σ) (suffix : String) :
    List Anchor → World σ → World σ
  | [], w => w
  | anchor :: rest, w =>
    Observer.runAll lib o suffix rest (o.processAnchor lib anchor.toInfo anchor.info [suffix] w).2

/-- No anchor of the list fails with a transient error when the anchors are processed one
after the other from world `w`. -/
def Observer.NoTransient {σ : Type} (lib : Lib σ) (o : Observer σ) (suffix : String) :
    List Anchor → World σ → Prop
  | [], _ => True
  | anchor :: rest, w =>
    (∀ e, (o.processAnchor lib anchor.toInfo anchor.info [suffix] w).1 = some e →
      IsTransient e = false) ∧
    Observer.NoTransient lib o suffix rest
      (o.processAnchor lib anchor.toInfo anchor.info [suffix] w).2

/-- Deterministic collaborators: the outcome of reading a credential, of resolving a
protocol version and of processing a transaction does not depend on the calls made before
(in particular the processor is idempotent), and the outcome of an index update depends
only on the update asked for, that is, on the anchor reference and on the suffixes, in
whatever order they are listed. -/
def Providers.Deterministic {σ : Type} (p : Providers σ) : Prop :=
  (∀ cid st st', (p.read cid st).1 = (p.read cid st').1) ∧
  (∀ ns st st', (p.forNamespace ns st).1 = (p.forNamespace ns st').1) ∧
  (∀ pc version st st', (p.getVersion pc version st).1 = (p.getVersion pc version st').1) ∧
  (∀ v txn suffixes st st', (p.process v txn suffixes st).1 = (p.process v txn suffixes st').1) ∧
  (∀ dids dids' cid st st', dids'.Perm dids →
    (p.putBulk dids' cid st').1 = (p.putBulk dids cid st).1)

/-- A later delivery of the same anchors: the library functions are the same, but every
credential subject is decoded anew, into a map with the same entries that a `range` loop
may visit in another order. -/
def Lib.Redelivers {σ : Type} (lib lib' : Lib σ) : Prop :=
  lib'.getResourceHashFromHashLink = lib.getResourceHashFromHashLink ∧
  lib'.getAnchorString = lib.getAnchorString ∧
  ∀ info,
    (∀ err, lib.getAnchorSubject info = Except.error err →
      lib'.getAnchorSubject info = Except.error err) ∧
    (∀ p, lib.getAnchorSubject info = Except.ok p →
      ∃ q, lib'.getAnchorSubject info = Except.ok q ∧
        q.operationCount = p.operationCount ∧ q.coreIndex = p.coreIndex ∧
        q.nameSpace = p.nameSpace ∧ q.version = p.version ∧
        q.previousAnchors.entries.Perm p.previousAnchors.entries)

/-- Two runs make the same index update: neither calls `PutBulk`, or each calls it once,
for the same anchor reference, with the same outcome and with the same suffixes, which may
be listed in another order. -/
def SameIndexUpdate (new new' : List Effect) : Prop :=
  (new.filter Effect.isPutBulk = [] ∧ new'.filter Effect.isPutBulk = []) ∨
  ∃ dids dids' cid res,
    new.filter Effect.isPutBulk = [Effect.putBulk dids cid res] ∧
    new'.filter Effect.isPutBulk = [Effect.putBulk dids' cid res] ∧
    dids'.Perm dids

/-- Modelled from the spec: the DID-anchor index (`pkg/store/didanchor`) is not among the
sources.  The index maps a DID suffix to the reference of an anchor. -/
abbrev Index := String → Option String

/-- Modelled from the spec: `PutBulk(suffixes, ref)` "bulk-upserts" the index: every suffix
of the list now maps to `ref`. -/
def Index.putBulk (index : Index) (dids : List String) (cid : String) : Index :=
  fun suffix => if suffix ∈ dids then some cid else index suffix

/-- The index after the successful `PutBulk` calls of a trace were applied to it. -/
def Index.after (index : Index) : List Effect → Index
  | [] => index
  | Effect.putBulk dids cid none :: rest => Index.after (index.putBulk dids cid) rest
  | _ :: rest => Index.after index rest

/-! ## Document resolve handler -/

namespace Document

/-- The constant `delimiter`. -/
def delimiter : String := ":"

/-- The constant `minOrbSuffixParts`. -/
def minOrbSuffixParts : Nat := 2

/-- Go's `strings.HasPrefix(s, start)`. -/
def startsWith (s start : String) : Bool := start.data.isPrefixOf s.data

/-- Whether a text occurs in another one, at the front or further on. -/
def occursIn (sub : List Char) : List Char → Bool
  | [] => sub.isEmpty
  | c :: cs => sub.isPrefixOf (c :: cs) || occursIn sub cs

/-- Go's `strings.Contains(s, substr)`. -/
def contains (s substr : String) : Bool := occursIn substr.data s.data

/-- Go's `strings.Split(s, sep)` for a separator of one character: the pieces between the
separators, one more than there are separators. -/
def split (sep : Char) : List Char → List (List Char)
  | [] => [[]]
  | c :: cs =>
    if c = sep then [] :: split sep cs
    else
      match split sep cs with
      | [] => [[c]]
      | piece :: pieces => (c :: piece) :: pieces

/-- A `document.ResolutionResult`, of which nothing is inspected. -/
structure ResolutionResult where
  document : String
  deriving DecidableEq, Repr

/-- The struct `ResolveHandler`.  `coreResolver` is `coreResolver.ResolveDocument`: it
returns a result (which may be nil) and an error (which may be nil); `discovery` is
`discovery.RequestDiscovery`.  Both are functions of the collaborators' joint state. -/
structure ResolveHandler (σ : Type) where
  coreResolver : String → σ → (Option ResolutionResult × Option Err) × σ
  discovery : String → σ → Option Err × σ
  nameSpace : String
  aliases : List String
  unpublishedDIDLabel : String

/-- State of the collaborators together with the identifiers for which discovery was
requested so far, oldest first. -/
structure World (σ : Type) where
  st : σ
  discoveries : List String

/-- The method `getNamespace`: the configured namespace, or the first alias, that the DID
starts with. -/
def ResolveHandler.getNamespace {σ : Type} (r : ResolveHandler σ) (shortFormDID : String) :
    Except Err String :=
  if startsWith shortFormDID (r.nameSpace ++ delimiter) then Except.ok r.nameSpace
  else
    match r.aliases.find? (fun ns => startsWith shortFormDID (ns ++ delimiter)) with
    | some ns => Except.ok ns
    | none =>
      Except.error (Err.leaf ("did must start with configured namespace[" ++ r.nameSpace
        ++ "] or aliases" ++ toString r.aliases))

/-- The method `getOrbSuffix`: the part of the identifier that follows the namespace; a
valid Orb suffix has at least two parts. -/
def ResolveHandler.getOrbSuffix {σ : Type} (r : ResolveHandler σ) (shortFormDID : String) :
    Except Err String :=
  match r.getNamespace shortFormDID with
  | Except.error err => Except.error err
  | Except.ok ns =>
    let orbSuffix := String.mk (shortFormDID.data.drop (ns ++ delimiter).length)
    let parts := split ':' orbSuffix.data
    if parts.length < minOrbSuffixParts then
      Except.error (Err.leaf ("invalid number of parts for orb suffix[" ++ orbSuffix ++ "]"))
    else Except.ok orbSuffix

/-- The method `requestDiscovery`: requests discovery for the Orb suffix of an identifier,
unless it has none or is that of an unpublished DID.  An error of the discovery service is
only logged. -/
def ResolveHandler.requestDiscovery {σ : Type} (r : ResolveHandler σ) (id : String)
    (w : World σ) : World σ :=
  match r.getOrbSuffix id with
  | Except.error _ => w
  | Except.ok orbSuffix =>
    if startsWith orbSuffix r.unpublishedDIDLabel then w
    else
      match r.discovery orbSuffix w.st with
      | (some _, st) => { st := st, discoveries := w.discoveries ++ [orbSuffix] }
      | (none, st) => { st := st, discoveries := w.discoveries ++ [orbSuffix] }

/-- The method `ResolveDocument`: resolves a document. -/
def ResolveHandler.ResolveDocument {σ : Type} (r : ResolveHandler σ) (id : String)
    (w : World σ) : (Option ResolutionResult × Option Err) × World σ :=
  match r.coreResolver id w.st with
  | ((_, some err), st) =>
    if contains err.Error "not found" then
      ((none, some err), r.requestDiscovery id { w with st := st })
    else ((none, some err), { w with st := st })
  | ((response, none), st) => ((response, none), { w with st := st })

end Document

/-! ## Histories of the VC-status store -/

namespace Vcstatus

/-- One successful `AddStatus` call whose freshly drawn uuid is not yet a key of the
underlying store. -/
def Store.Adds (s s' : Store) : Prop :=
  ∃ (env : Storage.Env) (uuid vcID : String) (status : VCStatus),
    (∀ r ∈ s.store.records, r.key ≠ uuid) ∧ s.AddStatus env uuid vcID status = (none, s')

/-- Any number of successful `AddStatus` calls, one after the other. -/
def Store.History (s s' : Store) : Prop := Relation.ReflTransGen Store.Adds s s'

/-- A failure reported by the storage provider while `GetStatus` runs the query `expr`. -/
def StorageFailure (env : Storage.Env) (expr : String) (e : Err) : Prop :=
  env.query expr = some e ∨ ∃ i, env.next i = some e ∨ env.value i = some e

end Vcstatus

/-! ## Sample data -/

namespace Unpublished

/-- A serialisation used to exercise the store on concrete operations: the bytes are the
unique suffix, every other field is that of a "create" request. -/
def sampleCodec : Codec where
  marshal := fun op => Except.ok op.uniqueSuffix
  unmarshal := fun b => Except.ok ⟨"create", b, "req", 0, 0, 0, "", [], ""⟩

/-- A "create" operation for suffix `s1`. -/
def sampleOp : AnchoredOperation := ⟨"create", "s1", "req", 0, 0, 0, "", [], ""⟩

end Unpublished

namespace Vcstatus

/-- A new store over an empty underlying store whose serialisation keeps the status
text as it is. -/
def sampleStore : Store where
  store := Storage.Store.empty
  marshal := fun status => Except.ok status
  unmarshal := fun data _ => Except.ok data

end Vcstatus

namespace Vcstatus

/-- A storage provider whose iterator fails to deliver the second result of a query. -/
def brokenIteratorEnv : Storage.Env :=
  { Storage.Env.reliable with
    value := fun i => if i = 1 then some (Err.leaf "read failed") else none }

end Vcstatus

/-- The payload of the sample anchors: one operation on suffix `suffixA`. -/
def samplePayload : AnchorPayload where
  operationCount := 1
  coreIndex := "hl:core"
  nameSpace := "did:orb"
  version := 1
  previousAnchors := ⟨[("suffixA", "hl:prev")], by simp⟩

/-- A credential issued at second 1000 whose subject decodes to `samplePayload`. -/
def sampleCredential : Credential := ⟨1000, "anchor"⟩

/-- A credential whose subject does not decode. -/
def badCredential : Credential := ⟨1000, "bad"⟩

/-- The content address of a hashlink of the form `hl:<hash>` or `hl:<hash>:<hints>`. -/
def sampleResourceHash (hl : String) : Except Err String :=
  match hl.data with
  | 'h' :: 'l' :: ':' :: rest => Except.ok (String.mk (rest.takeWhile (fun c => c ≠ ':')))
  | _ => Except.error (Err.leaf ("hashlink [" ++ hl ++ "] must start with [hl:]"))

/-- A URL parser that, like `url.Parse`, refuses a text that starts with a colon
("missing protocol scheme"). -/
def sampleParse (text : String) : Except Err URL :=
  match text.data with
  | ':' :: _ => Except.error (Err.leaf "missing protocol scheme")
  | _ => Except.ok ⟨text⟩

/-- Library functions for the sample runs; the state of the collaborators is the number
of calls made so far and is also the reading of the clock. -/
def sampleLib : Lib Nat where
  now := fun st => (st, st + 1)
  getAnchorSubject := fun info =>
    if info.subject = "bad" then Except.error (Err.leaf "unmarshal anchor subject")
    else Except.ok samplePayload
  getResourceHashFromHashLink := sampleResourceHash
  getAnchorString := fun count coreIndex => toString count ++ "." ++ coreIndex
  parse := sampleParse

/-- Collaborators that succeed, except that the transaction processor fails with a
transient error on an anchor issued at second 0.  The anchor graph knows two anchors for
every DID: one with an undecodable subject and one that is valid. -/
def sampleProviders : Providers Nat where
  forNamespace := fun _ st => (Except.ok 0, st + 1)
  getVersion := fun _ _ st => (Except.ok 0, st + 1)
  process := fun _ txn _ st =>
    (if txn.transactionTime = 0 then some (NewTransient (Err.leaf "store unavailable"))
      else none, st + 1)
  read := fun _ st => (Except.ok sampleCredential, st + 1)
  getDidAnchors := fun _ _ st =>
    (Except.ok [⟨"hl:first", badCredential⟩, ⟨"hl:second", sampleCredential⟩], st + 1)
  putBulk := fun _ _ st => (none, st + 1)
  post := fun _ st => (none, st + 1)
  processAnchorTime := fun _ st => st + 1
  processDIDTime := fun _ st => st + 1

/-- An observer without a discovery domain. -/
def sampleObserver : Observer Nat := ⟨sampleProviders, ""⟩

/-- An observer whose anchor graph knows three anchors for every DID, the second of which
was issued at second 0. -/
def retryObserver : Observer Nat where
  providers :=
    { sampleProviders with
      getDidAnchors := fun _ _ st =>
        (Except.ok [⟨"hl:first", badCredential⟩, ⟨"hl:retry", ⟨0, "anchor"⟩⟩,
          ⟨"hl:third", sampleCredential⟩], st + 1) }
  discoveryDomain := ""

/-- Library functions that decode every credential subject into a payload of two
operations, on `suffixA` and on `suffixB`. -/
def twoKeyLib : Lib Nat :=
  { sampleLib with
    getAnchorSubject := fun _ =>
      Except.ok ⟨2, "hl:core", "did:orb", 1,
        ⟨[("suffixA", "hl:prev"), ("suffixB", "hl:prev")], by decide⟩⟩ }

/-- The same library functions at a later delivery, when the two keys of the map are
visited in the other order. -/
def twoKeyLibReordered : Lib Nat :=
  { sampleLib with
    getAnchorSubject := fun _ =>
      Except.ok ⟨2, "hl:core", "did:orb", 1,
        ⟨[("suffixB", "hl:prev"), ("suffixA", "hl:prev")], by decide⟩⟩ }

/-- The anchor of the scenario: hashlink `hl:abc`, attributed to a peer. -/
def sampleAnchor : AnchorInfo := ⟨"hl:abc", "", "https://peer/actor"⟩

/-- The world before anything was observed. -/
def sampleWorld : World Nat := ⟨0, []⟩

namespace Document

/-- A handler for the namespace `did:orb` with the alias `did:alias` and the label `uAAA`
for unpublished DIDs.  The core resolver knows one document; the discovery service always
fails. -/
def sampleHandler : ResolveHandler Nat where
  coreResolver := fun id st =>
    (if id = "did:orb:uEiA:known" then (some ⟨"doc"⟩, none)
      else (none, some (Err.leaf "document not found")), st + 1)
  discovery := fun _ st => (some (Err.leaf "discovery unavailable"), st + 1)
  nameSpace := "did:orb"
  aliases := ["did:alias"]
  unpublishedDIDLabel := "uAAA"

end Document

/-! # Properties -/

/-! ## Errors -/

theorem isTransient_wrap (text : String) (e : Err) :
    IsTransient (Err.wrap text e) = IsTransient e := rfl

theorem isTransient_newTransient (e : Err) : IsTransient (NewTransient e) = true := rfl

/-! ## Underlying store -/

namespace Storage

theorem lookup_erase_self (k : String) (rs : List Record) : lookup k (erase k rs) = none := by
  induction rs with
  | nil => rfl
  | cons r rs ih =>
    by_cases h : r.key = k
    · simpa [erase, List.filter_cons, h] using ih
    · simpa [erase, List.filter_cons, h, lookup] using ih

theorem lookup_upsert_self (r : Record) (rs : List Record) :
    lookup r.key (upsert r rs) = some r.value := by
  induction rs with
  | nil => simp [upsert, lookup]
  | cons x xs ih =>
    by_cases h : x.key = r.key
    · simp [upsert, h, lookup]
    · simp [upsert, h, lookup, ih]

end Storage

/-! ## Unpublished operation store -/

namespace Unpublished

/-- C1: when the underlying store returns a record for the operation's unique suffix,
`Put` returns an error that is not transient and hands back the store exactly as it was:
no write call is issued and every record, the pending one included, is unchanged. -/
theorem put_pending_rejected (c : Codec) (env : Storage.Env) (s : Store)
    (op : AnchoredOperation) (v : Bytes)
    (hstored : s.store.get env op.uniqueSuffix = Except.ok v) :
    ∃ e, s.Put c env op = (some e, s) ∧ IsTransient e = false := by
  unfold Store.Put
  by_cases hempty : op.uniqueSuffix = ""
  · rw [if_pos hempty]
    exact ⟨_, rfl, rfl⟩
  · simp only [hempty, if_false, Store.Get, hstored]
    cases hdec : c.unmarshal v with
    | error msg => exact ⟨_, rfl, rfl⟩
    | ok pending => exact ⟨_, rfl, rfl⟩

/-- Witness of C1: a second `Put` for suffix `s1` on the store left by a first one. -/
theorem put_pending_rejected_witness :
    ∃ e, (Store.mk ⟨[⟨"s1", "s1", []⟩], [Storage.Write.put "s1" "s1" []]⟩).Put sampleCodec
        Storage.Env.reliable sampleOp
      = (some e, Store.mk ⟨[⟨"s1", "s1", []⟩], [Storage.Write.put "s1" "s1" []]⟩)
      ∧ IsTransient e = false :=
  put_pending_rejected sampleCodec Storage.Env.reliable _ sampleOp "s1" rfl

/-- C2: after a successful `Delete` of the suffix of a stored record, a `Put` of an
operation with that suffix succeeds and `Get` then returns that operation, provided the
underlying store answers the reads and accepts the write, and the operation survives
serialisation. -/
theorem put_after_delete (c : Codec) (envD envP envG : Storage.Env) (s s1 : Store)
    (op : AnchoredOperation) (v b : Bytes)
    (hstored : Storage.lookup op.uniqueSuffix s.store.records = some v)
    (hdel : s.Delete envD op.uniqueSuffix = (none, s1))
    (hcheck : envP.get op.uniqueSuffix = none)
    (hmarshal : c.marshal op = Except.ok b)
    (hwrite : envP.put op.uniqueSuffix = none)
    (hround : c.unmarshal b = Except.ok op)
    (hread : envG.get op.uniqueSuffix = none) :
    ∃ s2, s1.Put c envP op = (none, s2) ∧ s2.Get c envG op.uniqueSuffix = Except.ok op := by
  have _ := hstored
  by_cases hempty : op.uniqueSuffix = ""
  · simp [Store.Delete, Storage.Store.delete, hempty] at hdel
  · cases hfault : envD.delete op.uniqueSuffix with
    | some e => simp [Store.Delete, Storage.Store.delete, hempty, hfault] at hdel
    | none =>
      simp only [Store.Delete, Storage.Store.delete, hempty, hfault, if_false, Prod.mk.injEq,
        true_and] at hdel
      subst hdel
      refine ⟨⟨⟨Storage.upsert ⟨op.uniqueSuffix, b, []⟩
        (Storage.erase op.uniqueSuffix s.store.records),
        (s.store.writes ++ [Storage.Write.delete op.uniqueSuffix])
          ++ [Storage.Write.put op.uniqueSuffix b []]⟩⟩, ?_, ?_⟩
      · simp [Store.Put, Store.Get, Storage.Store.get, Storage.Store.put, hempty, hcheck,
          Storage.lookup_erase_self, isDataNotFound, hmarshal, hwrite]
      · have hl := Storage.lookup_upsert_self ⟨op.uniqueSuffix, b, []⟩
          (Storage.erase op.uniqueSuffix s.store.records)
        simp only at hl
        simp [Store.Get, Storage.Store.get, hempty, hread, hl, hround]

/-- Witness of C2: delete the pending operation of suffix `s1`, then submit it again. -/
theorem put_after_delete_witness :
    ∃ s2, (Store.mk ⟨[], [Storage.Write.put "s1" "s1" [], Storage.Write.delete "s1"]⟩).Put
        sampleCodec Storage.Env.reliable sampleOp = (none, s2)
      ∧ s2.Get sampleCodec Storage.Env.reliable sampleOp.uniqueSuffix = Except.ok sampleOp :=
  put_after_delete sampleCodec Storage.Env.reliable Storage.Env.reliable Storage.Env.reliable
    (Store.mk ⟨[⟨"s1", "s1", []⟩], [Storage.Write.put "s1" "s1" []]⟩) _ sampleOp "s1" "s1"
    (by decide) (by decide) rfl rfl rfl rfl rfl

end Unpublished

/-! ## VC-status store -/

namespace Storage

theorem upsert_fresh (r : Record) (rs : List Record) (h : ∀ x ∈ rs, x.key ≠ r.key) :
    upsert r rs = rs ++ [r] := by
  induction rs with
  | nil => rfl
  | cons x xs ih =>
    have hx : x.key ≠ r.key := h x (List.mem_cons_self _ _)
    have hxs : ∀ y ∈ xs, y.key ≠ r.key := fun y hy => h y (List.mem_cons_of_mem _ hy)
    simp [upsert, hx, ih hxs]

theorem mem_matching (expr : String) (rs : List Record) (r : Record) (t : Tag)
    (hr : r ∈ rs) (ht : t ∈ r.tags) (hexpr : t.name ++ ":" ++ t.value = expr) :
    r.value ∈ matching expr rs := by
  unfold matching
  refine List.mem_map.mpr ⟨r, List.mem_filter.mpr ⟨hr, ?_⟩, rfl⟩
  exact List.any_eq_true.mpr ⟨t, ht, by simpa using hexpr⟩

theorem matching_subset (expr : String) (rs : List Record) (v : Bytes)
    (hv : v ∈ matching expr rs) : ∃ r ∈ rs, r.value = v := by
  unfold matching at hv
  obtain ⟨r, hr, rfl⟩ := List.mem_map.mp hv
  exact ⟨r, (List.mem_filter.mp hr).1, rfl⟩

end Storage

namespace Vcstatus

/-- What a successful `AddStatus` with a fresh uuid does to the store. -/
theorem Store.addStatus_ok {s s' : Store} {env : Storage.Env} {uuid vcID : String}
    {status : VCStatus} (hfresh : ∀ r ∈ s.store.records, r.key ≠ uuid)
    (hadd : s.AddStatus env uuid vcID status = (none, s')) :
    ∃ b : Bytes, s.marshal status = Except.ok b ∧
      s'.marshal = s.marshal ∧ s'.unmarshal = s.unmarshal ∧
      s'.store.records = s.store.records ++
        [⟨uuid, b, [⟨index, Base64.rawURLEncodeToString vcID⟩]⟩] := by
  unfold Store.AddStatus at hadd
  cases hm : s.marshal status with
  | error err => simp [hm] at hadd
  | ok b =>
    simp only [hm, Storage.Store.put] at hadd
    by_cases hk : uuid = ""
    · simp [hk] at hadd
    · cases hf : env.put uuid with
      | some e => simp [hk, hf] at hadd
      | none =>
        simp only [hk, hf, if_false, Prod.mk.injEq, true_and] at hadd
        subst hadd
        exact ⟨b, rfl, rfl, rfl, Storage.upsert_fresh _ _ (fun x hx => hfresh x hx)⟩

theorem Store.Adds.spec {s s' : Store} (h : Store.Adds s s') :
    ∃ (uuid vcID : String) (status : VCStatus) (b : Bytes),
      s.marshal status = Except.ok b ∧
      s'.marshal = s.marshal ∧ s'.unmarshal = s.unmarshal ∧
      s'.store.records = s.store.records ++
        [⟨uuid, b, [⟨index, Base64.rawURLEncodeToString vcID⟩]⟩] := by
  obtain ⟨env, uuid, vcID, status, hfresh, hadd⟩ := h
  obtain ⟨b, hb⟩ := Store.addStatus_ok hfresh hadd
  exact ⟨uuid, vcID, status, b, hb⟩

/-- Along a history the serialisation functions stay the same and no record is lost. -/
theorem Store.History.keeps {s s' : Store} (h : Store.History s s') :
    s'.marshal = s.marshal ∧ s'.unmarshal = s.unmarshal ∧
      ∀ r ∈ s.store.records, r ∈ s'.store.records := by
  induction h with
  | refl => exact ⟨rfl, rfl, fun _ hr => hr⟩
  | tail _ hstep ih =>
    obtain ⟨_, _, _, _, _, hm, hu, hrec⟩ := hstep.spec
    refine ⟨hm.trans ih.1, hu.trans ih.2.1, fun r hr => ?_⟩
    rw [hrec]
    exact List.mem_append_left _ (ih.2.2 r hr)

/-- Along a history every record that was not there at the start holds a serialised
status. -/
theorem Store.History.values {s s' : Store} (h : Store.History s s') :
    ∀ r ∈ s'.store.records,
      r ∈ s.store.records ∨ ∃ status, s.marshal status = Except.ok r.value := by
  induction h with
  | refl => exact fun _ hr => Or.inl hr
  | @tail m t hm hstep ih =>
    obtain ⟨_, _, status, b, hb, _, _, hrec⟩ := hstep.spec
    intro r hr
    rw [hrec] at hr
    rcases List.mem_append.mp hr with hr | hr
    · exact ih r hr
    · have hkeep : m.marshal = s.marshal := (Store.History.keeps hm).1
      rw [List.mem_singleton] at hr
      subst hr
      exact Or.inr ⟨status, by rw [← hkeep]; exact hb⟩

/-- The scan of a list of serialised statuses that holds a completed one ends with
"completed" or with a failure of the storage provider. -/
theorem Store.scan_completed (s : Store) (env : Storage.Env) (vcID expr : String)
    (hcodec : ∀ status b cur, s.marshal status = Except.ok b →
      s.unmarshal b cur = Except.ok status)
    (l : List Bytes) (hall : ∀ v ∈ l, ∃ status, s.marshal status = Except.ok v)
    (b : Bytes) (hb : s.marshal VCStatusCompleted = Except.ok b) (hmem : b ∈ l)
    (i : Nat) (cur : VCStatus) :
    s.scan env vcID l i cur = Except.ok VCStatusCompleted ∨
      ∃ text e, s.scan env vcID l i cur = Except.error (NewTransient (Err.wrap text e)) ∧
        StorageFailure env expr e := by
  induction l generalizing i cur with
  | nil => simp at hmem
  | cons v rest ih =>
    unfold Store.scan
    cases hval : env.value i with
    | some err => exact Or.inr ⟨_, err, rfl, Or.inr ⟨i, Or.inr hval⟩⟩
    | none =>
      obtain ⟨status, hstatus⟩ := hall v (List.mem_cons_self _ _)
      simp only [hcodec status v cur hstatus]
      by_cases hdone : status = VCStatusCompleted
      · simp [hdone]
      · simp only [hdone, if_false]
        cases hnext : env.next (i + 1) with
        | some err => exact Or.inr ⟨_, err, rfl, Or.inr ⟨i + 1, Or.inl hnext⟩⟩
        | none =>
          have hrest : b ∈ rest := by
            rcases List.mem_cons.mp hmem with h | h
            · subst h
              have := hcodec _ _ cur hb
              rw [hcodec _ _ cur hstatus] at this
              exact absurd (Except.ok.inj this) hdone
            · exact h
          exact ih (fun x hx => hall x (List.mem_cons_of_mem _ hx)) hrest (i + 1) status

/-- C3: start from a new store whose serialisation round-trips, add statuses any number
of times, add `Completed` for `vcID`, add statuses any number of times again (every uuid
drawn being new).  Then `GetStatus(vcID)`, whatever the order in which the provider
iterates over the events, returns `Completed` unless the storage provider reports a
failure (and then returns that failure as a transient error). -/
theorem completed_is_permanent (s0 s1 s2 s3 : Store) (env envG : Storage.Env)
    (uuid vcID : String)
    (hnew : s0.store.records = [])
    (hcodec : ∀ status b cur, s0.marshal status = Except.ok b →
      s0.unmarshal b cur = Except.ok status)
    (hbefore : Store.History s0 s1)
    (hfresh : ∀ r ∈ s1.store.records, r.key ≠ uuid)
    (hadd : s1.AddStatus env uuid vcID VCStatusCompleted = (none, s2))
    (hafter : Store.History s2 s3)
    (horder : ∀ l, (envG.order l).Perm l) :
    s3.GetStatus envG vcID = Except.ok VCStatusCompleted ∨
      ∃ text e, s3.GetStatus envG vcID = Except.error (NewTransient (Err.wrap text e)) ∧
        StorageFailure envG (index ++ ":" ++ Base64.rawURLEncodeToString vcID) e := by
  have hstep : Store.Adds s1 s2 := ⟨env, uuid, vcID, VCStatusCompleted, hfresh, hadd⟩
  have hall : Store.History s0 s3 :=
    Relation.ReflTransGen.trans (Relation.ReflTransGen.tail hbefore hstep) hafter
  obtain ⟨hm3, hu3, _⟩ := hall.keeps
  obtain ⟨hm1, _, _⟩ := Store.History.keeps hbefore
  obtain ⟨b, hb, _, _, hrec⟩ := Store.addStatus_ok hfresh hadd
  have hb0 : s0.marshal VCStatusCompleted = Except.ok b := by rw [← hm1]; exact hb
  -- the completed event is still stored at the end
  have hkept : (⟨uuid, b, [⟨index, Base64.rawURLEncodeToString vcID⟩]⟩ : Storage.Record)
      ∈ s3.store.records :=
    (Store.History.keeps hafter).2.2 _ (by rw [hrec]; simp)
  -- every stored value is a serialised status
  have hvals : ∀ v ∈ Storage.matching (index ++ ":" ++ Base64.rawURLEncodeToString vcID)
      s3.store.records, ∃ status, s3.marshal status = Except.ok v := by
    intro v hv
    obtain ⟨r, hr, rfl⟩ := Storage.matching_subset _ _ _ hv
    rcases hall.values r hr with h | ⟨status, h⟩
    · rw [hnew] at h; simp at h
    · exact ⟨status, by rw [hm3]; exact h⟩
  have hcodec3 : ∀ status b cur, s3.marshal status = Except.ok b →
      s3.unmarshal b cur = Except.ok status := by
    rw [hm3, hu3]; exact hcodec
  have hin : b ∈ envG.order
      (Storage.matching (index ++ ":" ++ Base64.rawURLEncodeToString vcID) s3.store.records) :=
    (horder _).mem_iff.mpr
      (Storage.mem_matching _ _ _ ⟨index, Base64.rawURLEncodeToString vcID⟩ hkept
        (by simp) rfl)
  unfold Store.GetStatus
  simp only [Storage.Store.query]
  cases hq : envG.query (index ++ ":" ++ Base64.rawURLEncodeToString vcID) with
  | some e => exact Or.inr ⟨_, e, rfl, Or.inl hq⟩
  | none =>
    simp only []
    cases hn : envG.next 0 with
    | some e => exact Or.inr ⟨_, e, rfl, Or.inr ⟨0, Or.inl hn⟩⟩
    | none =>
      simp only []
      cases hres : envG.order
          (Storage.matching (index ++ ":" ++ Base64.rawURLEncodeToString vcID)
            s3.store.records) with
      | nil => rw [hres] at hin; simp at hin
      | cons v rest =>
        simp only []
        rw [← hres]
        exact Store.scan_completed s3 envG vcID _ hcodec3 _
          (fun x hx => hvals x ((horder _).mem_iff.mp hx)) b (by rw [hm3]; exact hb0) hin 0 ""

/-- Witness of C3: `Completed` then `in-process` are added for `vc1`; the status read back
is `Completed`. -/
theorem completed_is_permanent_witness :
    (Store.mk ⟨[⟨"u1", "completed", [⟨"vcID", "dmMx"⟩]⟩, ⟨"u2", "in-process", [⟨"vcID", "dmMx"⟩]⟩],
        [Storage.Write.put "u1" "completed" [⟨"vcID", "dmMx"⟩],
          Storage.Write.put "u2" "in-process" [⟨"vcID", "dmMx"⟩]]⟩
        sampleStore.marshal sampleStore.unmarshal).GetStatus Storage.Env.reliable "vc1"
        = Except.ok VCStatusCompleted ∨
      ∃ text e,
        (Store.mk ⟨[⟨"u1", "completed", [⟨"vcID", "dmMx"⟩]⟩,
            ⟨"u2", "in-process", [⟨"vcID", "dmMx"⟩]⟩],
          [Storage.Write.put "u1" "completed" [⟨"vcID", "dmMx"⟩],
            Storage.Write.put "u2" "in-process" [⟨"vcID", "dmMx"⟩]]⟩
          sampleStore.marshal sampleStore.unmarshal).GetStatus Storage.Env.reliable "vc1"
          = Except.error (NewTransient (Err.wrap text e)) ∧
        StorageFailure Storage.Env.reliable
          (index ++ ":" ++ Base64.rawURLEncodeToString "vc1") e :=
  completed_is_permanent sampleStore sampleStore
    (Store.mk ⟨[⟨"u1", "completed", [⟨"vcID", "dmMx"⟩]⟩],
      [Storage.Write.put "u1" "completed" [⟨"vcID", "dmMx"⟩]]⟩
      sampleStore.marshal sampleStore.unmarshal)
    _ Storage.Env.reliable Storage.Env.reliable "u1" "vc1" rfl
    (fun _ _ _ h => by cases h; rfl)
    Relation.ReflTransGen.refl
    (fun r hr => by simp [sampleStore, Storage.Store.empty] at hr)
    rfl
    (Relation.ReflTransGen.single
      ⟨Storage.Env.reliable, "u2", "vc1", VCStatusInProcess, by decide, rfl⟩)
    (fun l => List.Perm.refl l)

end Vcstatus

/-! ## Observer: one anchor -/

section Anchor

variable {σ : Type} (lib : Lib σ) (o : Observer σ)

/-- Without `AttributedTo` nothing is done. -/
theorem Observer.postLikeActivity_unattributed (anchor : AnchorInfo) (w : World σ)
    (h : anchor.attributedTo = "") : o.postLikeActivity lib anchor w = (none, w) := by
  simp [Observer.postLikeActivity, h]

/-- The only call `postLikeActivity` may make is one `Outbox.Post`, of a "Like" of the
parsed hashlink addressed to the parsed originator and the public audience. -/
theorem Observer.postLikeActivity_trace (anchor : AnchorInfo) (w : World σ) :
    (o.postLikeActivity lib anchor w).2.trace = w.trace ∨
      ∃ like res, (o.postLikeActivity lib anchor w).2.trace = w.trace ++ [Effect.post like res] ∧
        anchor.attributedTo ≠ "" ∧
        lib.parse anchor.hashlink = Except.ok like.object ∧
        ∃ origin, lib.parse anchor.attributedTo = Except.ok origin ∧
          like.recipients = [origin, PublicIRI] := by
  unfold Observer.postLikeActivity
  by_cases hattr : anchor.attributedTo = ""
  · simp [hattr]
  · simp only [hattr, if_false]
    cases hhl : lib.parse anchor.hashlink with
    | error err => exact Or.inl rfl
    | ok refURL =>
      cases hat : lib.parse anchor.attributedTo with
      | error err => exact Or.inl rfl
      | ok origin =>
        simp only []
        by_cases hloc : anchor.localHashlink = ""
        · simp only [hloc, ne_eq, not_true_eq_false, if_false]
          rcases hp : o.providers.post
            { object := refURL, recipients := [origin, PublicIRI],
              published := (lib.now w.st).1, result := none } (lib.now w.st).2 with ⟨r, st2⟩
          cases r with
          | none => exact Or.inr ⟨_, none, rfl, hattr, rfl, origin, rfl, rfl⟩
          | some err => exact Or.inr ⟨_, some err, rfl, hattr, rfl, origin, rfl, rfl⟩
        · simp only [hloc, ne_eq, not_false_eq_true, if_true]
          cases hlp : lib.parse anchor.localHashlink with
          | error err => exact Or.inl rfl
          | ok u =>
            simp only []
            rcases hp : o.providers.post
              { object := refURL, recipients := [origin, PublicIRI],
                published := (lib.now w.st).1, result := some u } (lib.now w.st).2 with ⟨r, st2⟩
            cases r with
            | none => exact Or.inr ⟨_, none, rfl, hattr, rfl, origin, rfl, rfl⟩
            | some err => exact Or.inr ⟨_, some err, rfl, hattr, rfl, origin, rfl, rfl⟩

/-- Either `processAnchor` reaches the transaction processor, or it fails before making
any call that is traced. -/
theorem Observer.processAnchor_early (anchor : AnchorInfo) (info : Credential)
    (suffixes : List String) (w : World σ) :
    (∃ payload txn v st, o.Submits lib anchor info w payload txn v st) ∨
      (∃ e, (o.processAnchor lib anchor info suffixes w).1 = some e) ∧
        (o.processAnchor lib anchor info suffixes w).2.trace = w.trace := by
  cases hsub : lib.getAnchorSubject info with
  | error err =>
    refine Or.inr ?_
    simp only [Observer.processAnchor, hsub]
    exact ⟨⟨_, rfl⟩, trivial⟩
  | ok payload =>
    rcases hns : o.providers.forNamespace payload.nameSpace w.st with ⟨r1, st1⟩
    cases r1 with
    | error err =>
      refine Or.inr ?_
      simp only [Observer.processAnchor, hsub, hns]
      exact ⟨⟨_, rfl⟩, trivial⟩
    | ok pc =>
      rcases hver : o.providers.getVersion pc payload.version st1 with ⟨r2, st2⟩
      cases r2 with
      | error err =>
        refine Or.inr ?_
        simp only [Observer.processAnchor, hsub, hns, hver]
        exact ⟨⟨_, rfl⟩, trivial⟩
      | ok v =>
        cases hcan : lib.getResourceHashFromHashLink anchor.hashlink with
        | error err =>
          refine Or.inr ?_
          simp only [Observer.processAnchor, hsub, hns, hver, hcan]
          exact ⟨⟨_, rfl⟩, trivial⟩
        | ok canonicalID =>
          exact Or.inl ⟨payload, _, v, st2, pc, st1, canonicalID, hsub, hns, hver, hcan, rfl⟩

variable {lib o}

/-- A failure of the transaction processor ends `processAnchor`. -/
theorem Observer.Submits.process_failed {anchor : AnchorInfo} {info : Credential}
    {w : World σ} {payload : AnchorPayload} {txn : SidetreeTxn} {v : Nat} {st st3 : σ}
    (h : o.Submits lib anchor info w payload txn v st) (suffixes : List String) (err : Err)
    (hproc : o.providers.process v txn suffixes st = (some err, st3)) :
    o.processAnchor lib anchor info suffixes w =
      (some (Err.wrap ("failed to processAnchors core index[" ++ payload.coreIndex ++ "]") err),
        ⟨st3, w.trace ++ [Effect.process txn suffixes (some err)]⟩) := by
  obtain ⟨pc, st1, canonicalID, h1, h2, h3, h4, rfl⟩ := h
  simp only [Observer.processAnchor, h1, h2, h3, h4, hproc]

/-- A failure of the index update ends `processAnchor`. -/
theorem Observer.Submits.putBulk_failed {anchor : AnchorInfo} {info : Credential}
    {w : World σ} {payload : AnchorPayload} {txn : SidetreeTxn} {v : Nat} {st st3 st4 : σ}
    (h : o.Submits lib anchor info w payload txn v st) (suffixes : List String) (err : Err)
    (hproc : o.providers.process v txn suffixes st = (none, st3))
    (hput : o.providers.putBulk (getKeys payload.previousAnchors) anchor.hashlink st3
      = (some err, st4)) :
    o.processAnchor lib anchor info suffixes w =
      (some (Err.wrap ("failed updating did anchor references for anchor credential["
        ++ anchor.hashlink ++ "]") err),
        ⟨st4, w.trace ++ [Effect.process txn suffixes none,
          Effect.putBulk (getKeys payload.previousAnchors) anchor.hashlink (some err)]⟩) := by
  obtain ⟨pc, st1, canonicalID, h1, h2, h3, h4, rfl⟩ := h
  simp only [Observer.processAnchor, h1, h2, h3, h4, hproc, hput]

/-- Once the index is updated `processAnchor` succeeds, whatever `postLikeActivity` does. -/
theorem Observer.Submits.done {anchor : AnchorInfo} {info : Credential}
    {w : World σ} {payload : AnchorPayload} {txn : SidetreeTxn} {v : Nat} {st st3 st4 : σ}
    (h : o.Submits lib anchor info w payload txn v st) (suffixes : List String)
    (hproc : o.providers.process v txn suffixes st = (none, st3))
    (hput : o.providers.putBulk (getKeys payload.previousAnchors) anchor.hashlink st3
      = (none, st4)) :
    o.processAnchor lib anchor info suffixes w =
      (none, (o.postLikeActivity lib anchor
        ⟨st4, w.trace ++ [Effect.process txn suffixes none,
          Effect.putBulk (getKeys payload.previousAnchors) anchor.hashlink none]⟩).2) := by
  obtain ⟨pc, st1, canonicalID, h1, h2, h3, h4, rfl⟩ := h
  simp only [Observer.processAnchor, h1, h2, h3, h4, hproc, hput]

/-- The steps before the transaction processor have one outcome. -/
theorem Observer.Submits.unique {anchor : AnchorInfo} {info : Credential}
    {w : World σ} {payload payload' : AnchorPayload} {txn txn' : SidetreeTxn} {v v' : Nat}
    {st st' : σ} (h : o.Submits lib anchor info w payload txn v st)
    (h' : o.Submits lib anchor info w payload' txn' v' st') :
    payload' = payload ∧ txn' = txn ∧ v' = v ∧ st' = st := by
  obtain ⟨pc, st1, canonicalID, h1, h2, h3, h4, rfl⟩ := h
  obtain ⟨pc', st1', canonicalID', h1', h2', h3', h4', rfl⟩ := h'
  rw [h1] at h1'
  cases h1'
  rw [h2] at h2'
  cases h2'
  rw [h3] at h3'
  cases h3'
  rw [h4] at h4'
  cases h4'
  exact ⟨rfl, rfl, rfl, rfl⟩

variable (lib o)

/-- The four ways `processAnchor` can run. -/
theorem Observer.processAnchor_run (anchor : AnchorInfo) (info : Credential)
    (suffixes : List String) (w : World σ) :
    ((¬ ∃ payload txn v st, o.Submits lib anchor info w payload txn v st) ∧
      (∃ e, (o.processAnchor lib anchor info suffixes w).1 = some e) ∧
      (o.processAnchor lib anchor info suffixes w).2.trace = w.trace) ∨
    ∃ payload txn v st, o.Submits lib anchor info w payload txn v st ∧
      ((∃ err st3, o.providers.process v txn suffixes st = (some err, st3) ∧
          o.processAnchor lib anchor info suffixes w =
            (some (Err.wrap ("failed to processAnchors core index[" ++ payload.coreIndex ++ "]")
              err), ⟨st3, w.trace ++ [Effect.process txn suffixes (some err)]⟩)) ∨
        (∃ st3 err st4, o.providers.process v txn suffixes st = (none, st3) ∧
          o.providers.putBulk (getKeys payload.previousAnchors) anchor.hashlink st3
            = (some err, st4) ∧
          o.processAnchor lib anchor info suffixes w =
            (some (Err.wrap ("failed updating did anchor references for anchor credential["
              ++ anchor.hashlink ++ "]") err),
              ⟨st4, w.trace ++ [Effect.process txn suffixes none,
                Effect.putBulk (getKeys payload.previousAnchors) anchor.hashlink (some err)]⟩)) ∨
        (∃ st3 st4, o.providers.process v txn suffixes st = (none, st3) ∧
          o.providers.putBulk (getKeys payload.previousAnchors) anchor.hashlink st3
            = (none, st4) ∧
          o.processAnchor lib anchor info suffixes w =
            (none, (o.postLikeActivity lib anchor
              ⟨st4, w.trace ++ [Effect.process txn suffixes none,
                Effect.putBulk (getKeys payload.previousAnchors) anchor.hashlink none]⟩).2))) := by
  by_cases hs : ∃ payload txn v st, o.Submits lib anchor info w payload txn v st
  · obtain ⟨payload, txn, v, st, hs⟩ := hs
    refine Or.inr ⟨payload, txn, v, st, hs, ?_⟩
    rcases hproc : o.providers.process v txn suffixes st with ⟨r, st3⟩
    cases r with
    | some err => exact Or.inl ⟨err, st3, rfl, hs.process_failed suffixes err hproc⟩
    | none =>
      rcases hput : o.providers.putBulk (getKeys payload.previousAnchors) anchor.hashlink st3
        with ⟨r, st4⟩
      cases r with
      | some err =>
        exact Or.inr (Or.inl ⟨st3, err, st4, rfl, hput, hs.putBulk_failed suffixes err hproc hput⟩)
      | none => exact Or.inr (Or.inr ⟨st3, st4, rfl, hput, hs.done suffixes hproc hput⟩)
  · rcases o.processAnchor_early lib anchor info suffixes w with h | h
    · exact absurd h hs
    · exact Or.inl ⟨hs, h⟩

/-- The keys of a map: each once, and nothing else. -/
theorem getKeys_spec (m : StringMap) :
    (getKeys m).Nodup ∧ ∀ k, k ∈ getKeys m ↔ ∃ a, (k, a) ∈ m.entries := by
  refine ⟨m.nodup, fun k => ?_⟩
  simp [getKeys]

/-- What `processAnchor` adds to the trace: nothing, or the call of the processor, then
perhaps the index update, then perhaps one post. -/
theorem Observer.processAnchor_trace (anchor : AnchorInfo) (info : Credential)
    (suffixes : List String) (w : World σ) :
    ∃ new, (o.processAnchor lib anchor info suffixes w).2.trace = w.trace ++ new ∧
      (∀ e ∈ new, e.isPost = true → anchor.attributedTo ≠ "") ∧
      (∀ txn sfx res, Effect.process txn sfx res ∈ new →
        ∃ payload v st, o.Submits lib anchor info w payload txn v st) := by
  rcases o.processAnchor_run lib anchor info suffixes w with
    ⟨_, _, htrace⟩ | ⟨payload, txn, v, st, hs, hrun⟩
  · exact ⟨[], by simpa using htrace, by simp, by simp⟩
  · rcases hrun with ⟨err, st3, _, hres⟩ | ⟨st3, err, st4, _, _, hres⟩ | ⟨st3, st4, _, _, hres⟩
    · refine ⟨[Effect.process txn suffixes (some err)], by rw [hres], by simp [Effect.isPost], ?_⟩
      intro txn' sfx res hmem
      simp only [List.mem_singleton, Effect.process.injEq] at hmem
      obtain ⟨rfl, -, -⟩ := hmem
      exact ⟨payload, v, st, hs⟩
    · refine ⟨_, by rw [hres], by simp [Effect.isPost], ?_⟩
      intro txn' sfx res hmem
      simp only [List.mem_cons, Effect.process.injEq, List.mem_singleton, reduceCtorEq,
        List.not_mem_nil, or_false] at hmem
      obtain ⟨rfl, -, -⟩ := hmem
      exact ⟨payload, v, st, hs⟩
    · rcases o.postLikeActivity_trace lib anchor
        ⟨st4, w.trace ++ [Effect.process txn suffixes none,
          Effect.putBulk (getKeys payload.previousAnchors) anchor.hashlink none]⟩ with
        h | ⟨like, res, h, hattr, _⟩
      · refine ⟨_, by rw [hres, h], by simp [Effect.isPost], ?_⟩
        intro txn' sfx res hmem
        simp only [List.mem_cons, Effect.process.injEq, List.mem_singleton, reduceCtorEq,
          List.not_mem_nil, or_false] at hmem
        obtain ⟨rfl, -, -⟩ := hmem
        exact ⟨payload, v, st, hs⟩
      · refine ⟨[Effect.process txn suffixes none,
          Effect.putBulk (getKeys payload.previousAnchors) anchor.hashlink none,
          Effect.post like res], by rw [hres, h]; simp, fun _ _ _ => hattr, ?_⟩
        intro txn' sfx res hmem
        simp only [List.mem_cons, Effect.process.injEq, List.mem_singleton, reduceCtorEq,
          List.not_mem_nil, or_false] at hmem
        obtain ⟨rfl, -, -⟩ := hmem
        exact ⟨payload, v, st, hs⟩

/-- The method `handleAnchor` when the credential cannot be read. -/
theorem Observer.handleAnchor_read_failed (anchor : AnchorInfo) (w : World σ) (err : Err)
    (st3 : σ)
    (hread : o.providers.read anchor.hashlink (lib.now (lib.now w.st).2).2
      = (Except.error err, st3)) :
    o.handleAnchor lib anchor w =
      (some err,
        ⟨o.providers.processAnchorTime ((lib.now (lib.now w.st).2).1 - (lib.now w.st).1) st3,
          w.trace ++ [Effect.read anchor.hashlink (some err)] ++
            [Effect.processAnchorTime ((lib.now (lib.now w.st).2).1 - (lib.now w.st).1)]⟩) := by
  simp only [Observer.handleAnchor, hread]

/-- The method `handleAnchor` when the credential is read: the outcome is that of
`processAnchor`, and the metric is reported. -/
theorem Observer.handleAnchor_read_ok (anchor : AnchorInfo) (w : World σ) (cred : Credential)
    (st3 : σ)
    (hread : o.providers.read anchor.hashlink (lib.now (lib.now w.st).2).2
      = (Except.ok cred, st3)) :
    o.handleAnchor lib anchor w =
      ((o.processAnchor lib anchor cred [] ⟨st3, w.trace ++ [Effect.read anchor.hashlink none]⟩).1,
        ⟨o.providers.processAnchorTime ((lib.now (lib.now w.st).2).1 - (lib.now w.st).1)
          (o.processAnchor lib anchor cred []
            ⟨st3, w.trace ++ [Effect.read anchor.hashlink none]⟩).2.st,
          (o.processAnchor lib anchor cred []
            ⟨st3, w.trace ++ [Effect.read anchor.hashlink none]⟩).2.trace ++
            [Effect.processAnchorTime ((lib.now (lib.now w.st).2).1 - (lib.now w.st).1)]⟩) := by
  simp only [Observer.handleAnchor, hread]
  rcases o.processAnchor lib anchor cred [] ⟨st3, w.trace ++ [Effect.read anchor.hashlink none]⟩
    with ⟨r, w4⟩
  cases r <;> rfl

/-- When the three links of an attributed anchor parse, `postLikeActivity` calls
`Outbox.Post` once. -/
theorem Observer.postLikeActivity_posts (anchor : AnchorInfo) (w : World σ)
    (refURL origin : URL) (hattr : anchor.attributedTo ≠ "")
    (hhl : lib.parse anchor.hashlink = Except.ok refURL)
    (hat : lib.parse anchor.attributedTo = Except.ok origin)
    (hloc : anchor.localHashlink ≠ "" → ∃ u, lib.parse anchor.localHashlink = Except.ok u) :
    ∃ like res, (o.postLikeActivity lib anchor w).2.trace = w.trace ++ [Effect.post like res] ∧
      like.object = refURL ∧ like.recipients = [origin, PublicIRI] := by
  rcases o.postLikeActivity_trace lib anchor w with h | ⟨like, res, h, _, hobj, origin', hor, hrec⟩
  · exfalso
    have hlen := congrArg List.length h
    revert hlen
    unfold Observer.postLikeActivity
    simp only [hattr, if_false, hhl, hat]
    by_cases hl : anchor.localHashlink = ""
    · simp only [hl, ne_eq, not_true_eq_false, if_false]
      rcases o.providers.post
        { object := refURL, recipients := [origin, PublicIRI],
          published := (lib.now w.st).1, result := none } (lib.now w.st).2 with ⟨r, st2⟩
      cases r <;> simp
    · obtain ⟨u, hu⟩ := hloc hl
      simp only [hl, ne_eq, not_false_eq_true, if_true, hu]
      rcases o.providers.post
        { object := refURL, recipients := [origin, PublicIRI],
          published := (lib.now w.st).1, result := some u } (lib.now w.st).2 with ⟨r, st2⟩
      cases r <;> simp
  · rw [hhl] at hobj
    rw [hat] at hor
    cases hobj
    cases hor
    exact ⟨like, res, h, rfl, hrec⟩

end Anchor

/-- C7: `processAnchor` calls `DidAnchors.PutBulk` only when the payload was decoded, the
protocol version resolved and the transaction processor has succeeded; in that case it calls
it exactly once, right after the processor, with the anchor's hashlink and with a list that
holds every key of the payload's `PreviousAnchors` once and nothing else. -/
theorem putBulk_after_processing {σ : Type} (lib : Lib σ) (o : Observer σ)
    (anchor : AnchorInfo) (info : Credential) (suffixes : List String) (w : World σ) :
    ∃ new, (o.processAnchor lib anchor info suffixes w).2.trace = w.trace ++ new ∧
      (∀ e ∈ new, e.isPutBulk = true →
        ∃ payload txn v st st3, o.Submits lib anchor info w payload txn v st ∧
          o.providers.process v txn suffixes st = (none, st3)) ∧
      (∀ payload txn v st st3, o.Submits lib anchor info w payload txn v st →
        o.providers.process v txn suffixes st = (none, st3) →
        ∃ rest, new = Effect.process txn suffixes none ::
            Effect.putBulk (getKeys payload.previousAnchors) anchor.hashlink
              (o.providers.putBulk (getKeys payload.previousAnchors) anchor.hashlink st3).1
            :: rest ∧
          (∀ e ∈ rest, e.isPutBulk = false) ∧
          (getKeys payload.previousAnchors).Nodup ∧
          ∀ k, k ∈ getKeys payload.previousAnchors ↔
            ∃ a, (k, a) ∈ payload.previousAnchors.entries) := by
  rcases o.processAnchor_run lib anchor info suffixes w with
    ⟨hno, _, htrace⟩ | ⟨payload, txn, v, st, hs, hrun⟩
  · refine ⟨[], by simpa using htrace, by simp, ?_⟩
    intro payload txn v st st3 hs
    exact absurd ⟨payload, txn, v, st, hs⟩ hno
  · rcases hrun with ⟨err, st3, hproc, hres⟩ | ⟨st3, err, st4, hproc, hput, hres⟩ |
      ⟨st3, st4, hproc, hput, hres⟩
    · refine ⟨[Effect.process txn suffixes (some err)], by rw [hres], ?_, ?_⟩
      · simp [Effect.isPutBulk]
      · intro payload' txn' v' st' st3' hs' hproc'
        obtain ⟨rfl, rfl, rfl, rfl⟩ := hs.unique hs'
        rw [hproc] at hproc'
        simp at hproc'
    · refine ⟨[Effect.process txn suffixes none,
        Effect.putBulk (getKeys payload.previousAnchors) anchor.hashlink (some err)],
        by rw [hres], ?_, ?_⟩
      · intro _ _ _
        exact ⟨payload, txn, v, st, st3, hs, hproc⟩
      · intro payload' txn' v' st' st3' hs' hproc'
        obtain ⟨rfl, rfl, rfl, rfl⟩ := hs.unique hs'
        rw [hproc] at hproc'
        obtain ⟨-, rfl⟩ := Prod.mk.inj hproc'
        exact ⟨[], by rw [hput], by simp, getKeys_spec _⟩
    · have hpost := o.postLikeActivity_trace lib anchor
        ⟨st4, w.trace ++ [Effect.process txn suffixes none,
          Effect.putBulk (getKeys payload.previousAnchors) anchor.hashlink none]⟩
      have key : ∃ rest, (o.processAnchor lib anchor info suffixes w).2.trace =
          w.trace ++ (Effect.process txn suffixes none ::
            Effect.putBulk (getKeys payload.previousAnchors) anchor.hashlink none :: rest) ∧
          ∀ e ∈ rest, e.isPutBulk = false := by
        rw [hres]
        rcases hpost with h | ⟨like, res, h, _⟩
        · exact ⟨[], by rw [h], by simp⟩
        · exact ⟨[Effect.post like res], by rw [h]; simp, by simp [Effect.isPutBulk]⟩
      obtain ⟨rest, htrace, hrest⟩ := key
      refine ⟨_, htrace, ?_, ?_⟩
      · intro _ _ _
        exact ⟨payload, txn, v, st, st3, hs, hproc⟩
      · intro payload' txn' v' st' st3' hs' hproc'
        obtain ⟨rfl, rfl, rfl, rfl⟩ := hs.unique hs'
        rw [hproc] at hproc'
        obtain ⟨-, rfl⟩ := Prod.mk.inj hproc'
        exact ⟨rest, by rw [hput], hrest, getKeys_spec _⟩

/-- Witness of C7: the anchor of the scenario; the index update is the second call and
the only one, with the suffix `suffixA` and the hashlink `hl:abc`. -/
theorem putBulk_after_processing_witness :
    ∃ rest, (sampleObserver.processAnchor sampleLib sampleAnchor sampleCredential []
        sampleWorld).2.trace =
        sampleWorld.trace ++
          (Effect.process ⟨1000, "1.hl:core", "did:orb", 1, "abc", ["hl:abc"]⟩ [] none ::
            Effect.putBulk ["suffixA"] "hl:abc" none :: rest) ∧
      ∀ e ∈ rest, e.isPutBulk = false := by
  obtain ⟨new, htrace, _, h⟩ := putBulk_after_processing sampleLib sampleObserver sampleAnchor
    sampleCredential [] sampleWorld
  obtain ⟨rest, hnew, hrest, _⟩ := h samplePayload
    ⟨1000, "1.hl:core", "did:orb", 1, "abc", ["hl:abc"]⟩ 0 2 3
    ⟨0, 1, "abc", rfl, rfl, rfl, rfl, by decide⟩ rfl
  exact ⟨rest, by rw [htrace, hnew]; rfl, hrest⟩

/-- C8: when the credential is read, the payload decoded, the protocol version resolved,
the transaction processed and the index updated, `handleAnchor` returns no error: the
outcome of `postLikeActivity`, which is then run, is dropped, whether the "Like" could
not be built or `Outbox.Post` failed. -/
theorem like_failure_not_escalated {σ : Type} (lib : Lib σ) (o : Observer σ)
    (anchor : AnchorInfo) (w : World σ) (cred : Credential) (payload : AnchorPayload)
    (txn : SidetreeTxn) (v : Nat) (st3 st st4 st5 : σ)
    (hread : o.providers.read anchor.hashlink (lib.now (lib.now w.st).2).2
      = (Except.ok cred, st3))
    (hsub : o.Submits lib anchor cred ⟨st3, w.trace ++ [Effect.read anchor.hashlink none]⟩
      payload txn v st)
    (hproc : o.providers.process v txn [] st = (none, st4))
    (hput : o.providers.putBulk (getKeys payload.previousAnchors) anchor.hashlink st4
      = (none, st5)) :
    (o.handleAnchor lib anchor w).1 = none ∧
      ∃ d, (o.handleAnchor lib anchor w).2.trace =
        (o.postLikeActivity lib anchor
          ⟨st5, w.trace ++ [Effect.read anchor.hashlink none] ++
            [Effect.process txn [] none,
              Effect.putBulk (getKeys payload.previousAnchors) anchor.hashlink none]⟩).2.trace
          ++ [Effect.processAnchorTime d] := by
  rw [o.handleAnchor_read_ok lib anchor w cred st3 hread, hsub.done [] hproc hput]
  exact ⟨rfl, _, rfl⟩

/-- Witness of C8: the originator of the anchor is not a URL, so the "Like" cannot be built,
and `handleAnchor` succeeds all the same. -/
theorem like_failure_not_escalated_witness :
    (sampleObserver.handleAnchor sampleLib ⟨"hl:abc", "", ":peer"⟩ sampleWorld).1 = none ∧
      ∃ d, (sampleObserver.handleAnchor sampleLib ⟨"hl:abc", "", ":peer"⟩ sampleWorld).2.trace =
        (sampleObserver.postLikeActivity sampleLib ⟨"hl:abc", "", ":peer"⟩
          ⟨7, sampleWorld.trace ++ [Effect.read "hl:abc" none] ++
            [Effect.process ⟨1000, "1.hl:core", "did:orb", 1, "abc", ["hl:abc"]⟩ [] none,
              Effect.putBulk (getKeys samplePayload.previousAnchors) "hl:abc" none]⟩).2.trace
          ++ [Effect.processAnchorTime d] :=
  like_failure_not_escalated sampleLib sampleObserver ⟨"hl:abc", "", ":peer"⟩ sampleWorld
    sampleCredential samplePayload ⟨1000, "1.hl:core", "did:orb", 1, "abc", ["hl:abc"]⟩ 0
    3 5 6 7 rfl ⟨0, 4, "abc", rfl, rfl, rfl, rfl, by decide⟩ rfl rfl

/-- Counterexample to C9 as stated: the anchor is attributed to `:peer`, which is not a
URL; `handleAnchor` succeeds and nothing is posted to the Outbox. -/
theorem like_posted_counterexample :
    (⟨"hl:abc", "", ":peer"⟩ : AnchorInfo).attributedTo ≠ "" ∧
      (sampleObserver.handleAnchor sampleLib ⟨"hl:abc", "", ":peer"⟩ sampleWorld).1 = none ∧
      (sampleObserver.handleAnchor sampleLib ⟨"hl:abc", "", ":peer"⟩ sampleWorld).2.trace.filter
        Effect.isPost = [] := by
  refine ⟨by decide, rfl, by decide⟩

/-- C9, amended: for an anchor with a non-empty `AttributedTo` for which `handleAnchor`
succeeds and whose `Hashlink`, `AttributedTo` and (when not empty) `LocalHashlink` parse as
URLs, `Outbox.Post` is called exactly once, with a "Like" whose object is the parsed
`Hashlink`, after the successful index update; for an anchor with an empty `AttributedTo`
nothing is posted. -/
theorem like_posted_when_built {σ : Type} (lib : Lib σ) (o : Observer σ)
    (anchor : AnchorInfo) (w : World σ) :
    (anchor.attributedTo ≠ "" → (o.handleAnchor lib anchor w).1 = none →
      ∀ refURL origin, lib.parse anchor.hashlink = Except.ok refURL →
        lib.parse anchor.attributedTo = Except.ok origin →
        (anchor.localHashlink ≠ "" → ∃ u, lib.parse anchor.localHashlink = Except.ok u) →
        ∃ txn dids like res d, (o.handleAnchor lib anchor w).2.trace =
            w.trace ++ [Effect.read anchor.hashlink none, Effect.process txn [] none,
              Effect.putBulk dids anchor.hashlink none, Effect.post like res,
              Effect.processAnchorTime d] ∧
          like.object = refURL ∧ like.recipients = [origin, PublicIRI]) ∧
    (anchor.attributedTo = "" →
      ∃ new, (o.handleAnchor lib anchor w).2.trace = w.trace ++ new ∧
        ∀ e ∈ new, e.isPost = false) := by
  rcases hread : o.providers.read anchor.hashlink (lib.now (lib.now w.st).2).2 with ⟨r, st3⟩
  cases r with
  | error err =>
    rw [o.handleAnchor_read_failed lib anchor w err st3 hread]
    refine ⟨fun _ h => by simp at h, fun _ => ⟨_, List.append_assoc _ _ _, ?_⟩⟩
    simp [Effect.isPost]
  | ok cred =>
    rw [o.handleAnchor_read_ok lib anchor w cred st3 hread]
    constructor
    · intro hattr hok refURL origin hhl hat hloc
      simp only at hok
      rcases o.processAnchor_run lib anchor cred []
          ⟨st3, w.trace ++ [Effect.read anchor.hashlink none]⟩ with
        ⟨_, ⟨e, he⟩, _⟩ | ⟨payload, txn, v, st, hs, hrun⟩
      · rw [he] at hok
        simp at hok
      · rcases hrun with ⟨err, st4, _, hres⟩ | ⟨st4, err, st5, _, _, hres⟩ |
          ⟨st4, st5, _, _, hres⟩
        · rw [hres] at hok
          simp at hok
        · rw [hres] at hok
          simp at hok
        · obtain ⟨like, res, hpost, hobj, hrec⟩ := o.postLikeActivity_posts lib anchor
            ⟨st5, w.trace ++ [Effect.read anchor.hashlink none] ++
              [Effect.process txn [] none,
                Effect.putBulk (getKeys payload.previousAnchors) anchor.hashlink none]⟩
            refURL origin hattr hhl hat hloc
          refine ⟨txn, getKeys payload.previousAnchors, like, res,
            (lib.now (lib.now w.st).2).1 - (lib.now w.st).1, ?_, hobj, hrec⟩
          rw [hres]
          simp only [hpost]
          simp
    · intro hattr
      obtain ⟨new, hnew, hpost, _⟩ := o.processAnchor_trace lib anchor cred []
        ⟨st3, w.trace ++ [Effect.read anchor.hashlink none]⟩
      refine ⟨Effect.read anchor.hashlink none :: new ++
        [Effect.processAnchorTime ((lib.now (lib.now w.st).2).1 - (lib.now w.st).1)], ?_, ?_⟩
      · simp only [hnew]
        simp
      · intro e he
        simp only [List.cons_append, List.mem_cons, List.mem_append, List.not_mem_nil,
          or_false] at he
        rcases he with rfl | he | rfl
        · rfl
        · cases hp : e.isPost with
          | false => rfl
          | true => exact absurd hattr (hpost e he hp)
        · rfl

/-- Witness of C9, amended: the anchor of the scenario, attributed to a peer. -/
theorem like_posted_when_built_witness :
    ∃ txn dids like res d,
      (sampleObserver.handleAnchor sampleLib sampleAnchor sampleWorld).2.trace =
        sampleWorld.trace ++ [Effect.read sampleAnchor.hashlink none,
          Effect.process txn [] none, Effect.putBulk dids sampleAnchor.hashlink none,
          Effect.post like res, Effect.processAnchorTime d] ∧
        like.object = ⟨"hl:abc"⟩ ∧ like.recipients = [⟨"https://peer/actor"⟩, PublicIRI] :=
  (like_posted_when_built sampleLib sampleObserver sampleAnchor sampleWorld).1 (by decide) rfl
    ⟨"hl:abc"⟩ ⟨"https://peer/actor"⟩ rfl rfl (fun h => absurd rfl h)

/-- Counterexample to C10 as stated: for the hashlink `hl:abc` the transaction submitted to
the processor has the canonical reference `abc`, and the first of its equivalent references
is `hl:abc`. -/
theorem equivalentReferences_counterexample :
    Effect.process ⟨1000, "1.hl:core", "did:orb", 1, "abc", ["hl:abc"]⟩ [] none
        ∈ (sampleObserver.handleAnchor sampleLib sampleAnchor sampleWorld).2.trace ∧
      (⟨1000, "1.hl:core", "did:orb", 1, "abc", ["hl:abc"]⟩ : SidetreeTxn).equivalentReferences.head?
        ≠ some (⟨1000, "1.hl:core", "did:orb", 1, "abc", ["hl:abc"]⟩ :
          SidetreeTxn).canonicalReference := by
  refine ⟨by decide, by decide⟩

/-- C10, amended: the transaction that `processAnchor` submits to the processor has the
content address computed from the anchor's hashlink as its canonical reference, and a
non-empty list of equivalent references whose first element is the anchor's hashlink itself,
followed by the alias `https:<domain>:<canonical reference>` as the only other element when
a discovery domain is configured. -/
theorem equivalentReferences_hashlink_first {σ : Type} (lib : Lib σ) (o : Observer σ)
    (anchor : AnchorInfo) (info : Credential) (suffixes : List String) (w : World σ) :
    ∃ new, (o.processAnchor lib anchor info suffixes w).2.trace = w.trace ++ new ∧
      ∀ txn sfx res, Effect.process txn sfx res ∈ new →
        lib.getResourceHashFromHashLink anchor.hashlink = Except.ok txn.canonicalReference ∧
        txn.equivalentReferences.head? = some anchor.hashlink ∧
        txn.equivalentReferences =
          if o.discoveryDomain ≠ "" then
            [anchor.hashlink, "https:" ++ o.discoveryDomain ++ ":" ++ txn.canonicalReference]
          else [anchor.hashlink] := by
  obtain ⟨new, hnew, _, hproc⟩ := o.processAnchor_trace lib anchor info suffixes w
  refine ⟨new, hnew, fun txn sfx res hmem => ?_⟩
  obtain ⟨payload, v, st, pc, st1, canonicalID, _, _, _, hcan, rfl⟩ := hproc txn sfx res hmem
  refine ⟨hcan, ?_, ?_⟩
  · by_cases hd : o.discoveryDomain = "" <;> simp [hd]
  · by_cases hd : o.discoveryDomain = "" <;> simp [hd]

/-- Witness of C10, amended: the anchor `hl:abc:hints` seen by an observer whose discovery
domain is `example.com`. -/
theorem equivalentReferences_hashlink_first_witness :
    ∃ txn : SidetreeTxn, txn.canonicalReference = "abc" ∧
      txn.equivalentReferences = ["hl:abc:hints", "https:example.com:abc"] := by
  obtain ⟨new, hnew, h⟩ := equivalentReferences_hashlink_first sampleLib
    (WithDiscoveryDomain "example.com" sampleObserver) ⟨"hl:abc:hints", "", ""⟩
    sampleCredential [] sampleWorld
  have hmem : Effect.process
      ⟨1000, "1.hl:core", "did:orb", 1, "abc", ["hl:abc:hints", "https:example.com:abc"]⟩ [] none
      ∈ new := by
    have hrun : ((WithDiscoveryDomain "example.com" sampleObserver).processAnchor sampleLib
        ⟨"hl:abc:hints", "", ""⟩ sampleCredential [] sampleWorld).2.trace =
        [Effect.process
          ⟨1000, "1.hl:core", "did:orb", 1, "abc", ["hl:abc:hints", "https:example.com:abc"]⟩
          [] none, Effect.putBulk ["suffixA"] "hl:abc:hints" none] := by decide
    rw [hrun] at hnew
    simp only [sampleWorld, List.nil_append] at hnew
    rw [← hnew]
    simp
  exact ⟨_, rfl, (h _ _ _ hmem).2.2⟩

/-! ## Observer: the anchors of a DID -/

theorem lastIndex_none (c : Char) (l : List Char) : lastIndex c l = none ↔ c ∉ l := by
  induction l with
  | nil => simp [lastIndex]
  | cons x xs ih =>
    unfold lastIndex
    cases h : lastIndex c xs with
    | some i =>
      have : ¬ c ∉ xs := fun hc => by rw [ih.mpr hc] at h; cases h
      simp only [reduceCtorEq, List.mem_cons, not_or, false_iff, not_and]
      exact fun _ => this
    | none =>
      have hxs : c ∉ xs := ih.mp h
      by_cases hx : x = c
      · simp [hx]
      · simp [hx, hxs, Ne.symm hx]

theorem lastIndex_some (c : Char) (l : List Char) (i : Nat) (h : lastIndex c l = some i) :
    l.take i ++ c :: l.drop (i + 1) = l ∧ c ∉ l.drop (i + 1) := by
  induction l generalizing i with
  | nil => simp [lastIndex] at h
  | cons x xs ih =>
    unfold lastIndex at h
    cases hxs : lastIndex c xs with
    | some j =>
      simp only [hxs, Option.some.injEq] at h
      subst h
      obtain ⟨h1, h2⟩ := ih j hxs
      exact ⟨by simpa using h1, by simpa using h2⟩
    | none =>
      simp only [hxs] at h
      by_cases hx : x = c
      · simp only [hx, if_true, Option.some.injEq] at h
        subst h
        exact ⟨by simp [hx], by simpa using (lastIndex_none c xs).mp hxs⟩
      · simp [hx] at h

section DID

variable {σ : Type} (lib : Lib σ) (o : Observer σ)

/-- The method `processDID` on a DID without delimiter. -/
theorem Observer.processDID_parts_failed (did : String) (w : World σ) (err : Err)
    (hparts : getDidParts did = Except.error err) :
    o.processDID lib did w =
      (some err,
        ⟨o.providers.processDIDTime ((lib.now (lib.now w.st).2).1 - (lib.now w.st).1)
          (lib.now (lib.now w.st).2).2,
          w.trace ++ [Effect.processDIDTime ((lib.now (lib.now w.st).2).1 - (lib.now w.st).1)]⟩) := by
  simp only [Observer.processDID, hparts]

/-- The method `processDID` once the anchors of the DID are known: the outcome is that of
the loop over the anchors, and the metric is reported. -/
theorem Observer.processDID_anchors (did : String) (w : World σ) (cid suffix : String)
    (anchors : List Anchor) (st2 : σ)
    (hparts : getDidParts did = Except.ok (cid, suffix))
    (hget : o.providers.getDidAnchors cid suffix (lib.now w.st).2 = (Except.ok anchors, st2))
    (r : Option Err × World σ)
    (hloop : o.processDIDAnchors lib suffix anchors
      ⟨st2, w.trace ++ [Effect.getDidAnchors cid suffix none]⟩ = r) :
    o.processDID lib did w =
      (r.1, ⟨o.providers.processDIDTime ((lib.now r.2.st).1 - (lib.now w.st).1) (lib.now r.2.st).2,
        r.2.trace ++ [Effect.processDIDTime ((lib.now r.2.st).1 - (lib.now w.st).1)]⟩) := by
  simp only [Observer.processDID, hparts, hget, hloop]

/-- Without transient failure the loop processes every anchor and returns no error. -/
theorem Observer.processDIDAnchors_all (suffix : String) (anchors : List Anchor) (w : World σ)
    (h : o.NoTransient lib suffix anchors w) :
    o.processDIDAnchors lib suffix anchors w = (none, o.runAll lib suffix anchors w) := by
  induction anchors generalizing w with
  | nil => rfl
  | cons anchor rest ih =>
    obtain ⟨hhead, hrest⟩ := h
    unfold Observer.processDIDAnchors Observer.runAll
    rcases hr : o.processAnchor lib anchor.toInfo anchor.info [suffix] w with ⟨r, w1⟩
    rw [hr] at hhead hrest
    have hinfo : ({ hashlink := anchor.cid, localHashlink := "", attributedTo := "" } : AnchorInfo)
        = anchor.toInfo := rfl
    rw [hinfo, hr]
    cases r with
    | none => exact ih w1 hrest
    | some e =>
      simp only [hhead e rfl, Bool.false_eq_true, if_false]
      exact ih w1 hrest

/-- The first transient failure ends the loop. -/
theorem Observer.processDIDAnchors_abort (suffix : String) (before after : List Anchor)
    (anchor : Anchor) (w wa : World σ) (e : Err)
    (hbefore : o.NoTransient lib suffix before w)
    (hfail : o.processAnchor lib anchor.toInfo anchor.info [suffix]
      (o.runAll lib suffix before w) = (some e, wa))
    (htransient : IsTransient e = true) :
    o.processDIDAnchors lib suffix (before ++ anchor :: after) w =
      (some (Err.wrap ("process out-of-system anchor [" ++ anchor.cid ++ "]") e), wa) := by
  induction before generalizing w with
  | nil =>
    simp only [List.nil_append, Observer.runAll] at hfail ⊢
    unfold Observer.processDIDAnchors
    have hinfo : ({ hashlink := anchor.cid, localHashlink := "", attributedTo := "" } : AnchorInfo)
        = anchor.toInfo := rfl
    rw [hinfo, hfail]
    simp [htransient]
  | cons first rest ih =>
    obtain ⟨hhead, hrest⟩ := hbefore
    simp only [List.cons_append, Observer.runAll] at hfail ⊢
    unfold Observer.processDIDAnchors
    have hinfo : ({ hashlink := first.cid, localHashlink := "", attributedTo := "" } : AnchorInfo)
        = first.toInfo := rfl
    rw [hinfo]
    rcases hr : o.processAnchor lib first.toInfo first.info [suffix] w with ⟨r, w1⟩
    rw [hr] at hhead hrest hfail
    cases r with
    | none => exact ih w1 hrest hfail
    | some e1 =>
      simp only [hhead e1 rfl, Bool.false_eq_true, if_false]
      exact ih w1 hrest hfail

/-- A failed `processAnchor` has made no successful index update; a successful one has made
the index update of its payload. -/
theorem Observer.processAnchor_index (anchor : AnchorInfo) (info : Credential)
    (suffixes : List String) (w : World σ) :
    ∃ new, (o.processAnchor lib anchor info suffixes w).2.trace = w.trace ++ new ∧
      ((o.processAnchor lib anchor info suffixes w).1 ≠ none →
        ∀ dids cid, Effect.putBulk dids cid none ∉ new) ∧
      ((o.processAnchor lib anchor info suffixes w).1 = none →
        ∃ payload, lib.getAnchorSubject info = Except.ok payload ∧
          Effect.putBulk (getKeys payload.previousAnchors) anchor.hashlink none ∈ new) := by
  rcases o.processAnchor_run lib anchor info suffixes w with
    ⟨_, ⟨e, he⟩, htrace⟩ | ⟨payload, txn, v, st, hs, hrun⟩
  · exact ⟨[], by simpa using htrace, by simp, fun h => by rw [he] at h; cases h⟩
  · rcases hrun with ⟨err, st3, _, hres⟩ | ⟨st3, err, st4, _, _, hres⟩ | ⟨st3, st4, _, _, hres⟩
    · exact ⟨_, by rw [hres], by simp, fun h => by rw [hres] at h; cases h⟩
    · exact ⟨_, by rw [hres], by simp, fun h => by rw [hres] at h; cases h⟩
    · obtain ⟨pc, st1, canonicalID, hsub, _⟩ := hs
      rcases o.postLikeActivity_trace lib anchor
        ⟨st4, w.trace ++ [Effect.process txn suffixes none,
          Effect.putBulk (getKeys payload.previousAnchors) anchor.hashlink none]⟩ with
        h | ⟨like, res, h, _⟩
      · exact ⟨_, by rw [hres, h], fun hne => by rw [hres] at hne; exact absurd rfl hne,
          fun _ => ⟨payload, hsub, by simp⟩⟩
      · refine ⟨[Effect.process txn suffixes none,
          Effect.putBulk (getKeys payload.previousAnchors) anchor.hashlink none,
          Effect.post like res], by rw [hres, h]; simp,
          fun hne => by rw [hres] at hne; exact absurd rfl hne,
          fun _ => ⟨payload, hsub, by simp⟩⟩

end DID

/-- C4: for a DID that splits into `(cid, suffix)` and the anchors returned by
`GetDidAnchors`, if no anchor fails with a transient error then `processDID` returns no
error and has run `processAnchor` on every anchor of the list, in order; a run of
`processAnchor` that fails makes no successful index update and a run that succeeds makes
the index update of its payload. -/
theorem processDID_skips_permanent_failures {σ : Type} (lib : Lib σ) (o : Observer σ)
    (did : String) (w : World σ) (cid suffix : String) (anchors : List Anchor) (st2 : σ)
    (hparts : getDidParts did = Except.ok (cid, suffix))
    (hget : o.providers.getDidAnchors cid suffix (lib.now w.st).2 = (Except.ok anchors, st2))
    (hpermanent : o.NoTransient lib suffix anchors
      ⟨st2, w.trace ++ [Effect.getDidAnchors cid suffix none]⟩) :
    (o.processDID lib did w).1 = none ∧
      (∃ d, (o.processDID lib did w).2 =
        ⟨o.providers.processDIDTime d (lib.now (o.runAll lib suffix anchors
            ⟨st2, w.trace ++ [Effect.getDidAnchors cid suffix none]⟩).st).2,
          (o.runAll lib suffix anchors
            ⟨st2, w.trace ++ [Effect.getDidAnchors cid suffix none]⟩).trace
            ++ [Effect.processDIDTime d]⟩) ∧
      ∀ (anchor : Anchor) (wa : World σ),
        ∃ new, (o.processAnchor lib anchor.toInfo anchor.info [suffix] wa).2.trace
            = wa.trace ++ new ∧
          ((o.processAnchor lib anchor.toInfo anchor.info [suffix] wa).1 ≠ none →
            ∀ dids ref, Effect.putBulk dids ref none ∉ new) ∧
          ((o.processAnchor lib anchor.toInfo anchor.info [suffix] wa).1 = none →
            ∃ payload, lib.getAnchorSubject anchor.info = Except.ok payload ∧
              Effect.putBulk (getKeys payload.previousAnchors) anchor.cid none ∈ new) := by
  rw [o.processDID_anchors lib did w cid suffix anchors st2 hparts hget _
    (o.processDIDAnchors_all lib suffix anchors _ hpermanent)]
  exact ⟨rfl, ⟨_, rfl⟩, fun anchor wa => o.processAnchor_index lib anchor.toInfo anchor.info _ wa⟩

/-- Witness of C4: the DID of the scenario; the first of its two anchors has an undecodable
payload, the second is valid. -/
theorem processDID_skips_permanent_failures_witness :
    (sampleObserver.processDID sampleLib "did:orb:cidhint:suffixB" sampleWorld).1 = none ∧
      (sampleObserver.processDID sampleLib "did:orb:cidhint:suffixB" sampleWorld).2.trace.filter
        Effect.isPutBulk = [Effect.putBulk ["suffixA"] "hl:second" none] :=
  ⟨(processDID_skips_permanent_failures sampleLib sampleObserver "did:orb:cidhint:suffixB"
      sampleWorld "did:orb:cidhint" "suffixB"
      [⟨"hl:first", badCredential⟩, ⟨"hl:second", sampleCredential⟩] 2 rfl rfl
      ⟨fun _ h => Option.some.inj h ▸ rfl, fun _ h => Option.noConfusion h, trivial⟩).1,
    by decide⟩

/-- C5: when the anchor at some position is the first whose processing fails with a
transient error, `processDID` returns a transient error, and the world it leaves is the one
that this anchor's processing left, with only the metric added: nothing is done for the
anchors that follow. -/
theorem processDID_aborts_on_transient {σ : Type} (lib : Lib σ) (o : Observer σ)
    (did : String) (w wa : World σ) (cid suffix : String) (before after : List Anchor)
    (anchor : Anchor) (st2 : σ) (e : Err)
    (hparts : getDidParts did = Except.ok (cid, suffix))
    (hget : o.providers.getDidAnchors cid suffix (lib.now w.st).2
      = (Except.ok (before ++ anchor :: after), st2))
    (hbefore : o.NoTransient lib suffix before
      ⟨st2, w.trace ++ [Effect.getDidAnchors cid suffix none]⟩)
    (hfail : o.processAnchor lib anchor.toInfo anchor.info [suffix]
      (o.runAll lib suffix before ⟨st2, w.trace ++ [Effect.getDidAnchors cid suffix none]⟩)
      = (some e, wa))
    (htransient : IsTransient e = true) :
    ∃ e' d, o.processDID lib did w =
        (some e', ⟨o.providers.processDIDTime d (lib.now wa.st).2,
          wa.trace ++ [Effect.processDIDTime d]⟩) ∧
      IsTransient e' = true := by
  rw [o.processDID_anchors lib did w cid suffix _ st2 hparts hget _
    (o.processDIDAnchors_abort lib suffix before after anchor _ wa e hbefore hfail htransient)]
  exact ⟨_, _, rfl, htransient⟩

/-- Witness of C5: three anchors, the second of which (issued at second 0) makes the
processor fail with a transient error; the third is not processed. -/
theorem processDID_aborts_on_transient_witness :
    ∃ e' d, retryObserver.processDID sampleLib "did:orb:cidhint:suffixB" sampleWorld =
        (some e', ⟨retryObserver.providers.processDIDTime d (sampleLib.now 5).2,
          [Effect.getDidAnchors "did:orb:cidhint" "suffixB" none,
            Effect.process ⟨0, "1.hl:core", "did:orb", 1, "retry", ["hl:retry"]⟩ ["suffixB"]
              (some (NewTransient (Err.leaf "store unavailable")))]
            ++ [Effect.processDIDTime d]⟩) ∧
      IsTransient e' = true :=
  processDID_aborts_on_transient sampleLib retryObserver "did:orb:cidhint:suffixB" sampleWorld
    ⟨5, [Effect.getDidAnchors "did:orb:cidhint" "suffixB" none,
      Effect.process ⟨0, "1.hl:core", "did:orb", 1, "retry", ["hl:retry"]⟩ ["suffixB"]
        (some (NewTransient (Err.leaf "store unavailable")))]⟩
    "did:orb:cidhint" "suffixB" [⟨"hl:first", badCredential⟩] [⟨"hl:third", sampleCredential⟩]
    ⟨"hl:retry", ⟨0, "anchor"⟩⟩ 2
    (Err.wrap "failed to processAnchors core index[hl:core]"
      (NewTransient (Err.leaf "store unavailable")))
    rfl rfl ⟨fun _ h => Option.some.inj h ▸ rfl, trivial⟩ rfl rfl

/-- C6: `getDidParts` fails exactly when the DID has no `:`; when it succeeds the two parts
joined by `:` give the DID back and the suffix has no `:`; when it fails `processDID` returns
that error, which is not transient, and has called nothing but the clock and the metric:
the anchor graph is not queried. -/
theorem getDidParts_splits_at_last_delimiter (did : String) :
    ((∃ e, getDidParts did = Except.error e) ↔ ':' ∉ did.data) ∧
      (∀ cid suffix, getDidParts did = Except.ok (cid, suffix) →
        cid ++ ":" ++ suffix = did ∧ ':' ∉ suffix.data) ∧
      ∀ {σ : Type} (lib : Lib σ) (o : Observer σ) (w : World σ) (e : Err),
        getDidParts did = Except.error e →
        IsTransient e = false ∧
          ∃ d, o.processDID lib did w =
            (some e, ⟨o.providers.processDIDTime d (lib.now (lib.now w.st).2).2,
              w.trace ++ [Effect.processDIDTime d]⟩) := by
  refine ⟨?_, ?_, ?_⟩
  · unfold getDidParts
    cases h : lastIndex ':' did.data with
    | none => simpa using (lastIndex_none _ _).mp h
    | some pos =>
      have : ¬ ':' ∉ did.data := fun hc => by rw [(lastIndex_none _ _).mpr hc] at h; cases h
      simpa using this
  · intro cid suffix h
    unfold getDidParts at h
    cases hpos : lastIndex ':' did.data with
    | none => simp [hpos] at h
    | some pos =>
      simp only [hpos, Except.ok.injEq, Prod.mk.injEq] at h
      obtain ⟨rfl, rfl⟩ := h
      obtain ⟨hjoin, hlast⟩ := lastIndex_some _ _ _ hpos
      refine ⟨?_, hlast⟩
      apply String.ext
      simpa [String.data_append] using hjoin
  · intro σ lib o w e h
    refine ⟨?_, _, o.processDID_parts_failed lib did w e h⟩
    unfold getDidParts at h
    cases hpos : lastIndex ':' did.data with
    | none =>
      simp only [hpos, Except.error.injEq] at h
      subst h
      rfl
    | some pos => simp [hpos] at h

/-- Witness of C6: the DID of the scenario splits at its last `:`, and a DID without `:` is
refused by `processDID` before the anchor graph is queried. -/
theorem getDidParts_splits_at_last_delimiter_witness :
    ("did:orb:cidhint" ++ ":" ++ "suffixB" = "did:orb:cidhint:suffixB" ∧ ':' ∉ "suffixB".data) ∧
      (IsTransient (Err.leaf "invalid number of parts for did[didorb]") = false ∧
        ∃ d, sampleObserver.processDID sampleLib "didorb" sampleWorld =
          (some (Err.leaf "invalid number of parts for did[didorb]"),
            ⟨sampleObserver.providers.processDIDTime d
              (sampleLib.now (sampleLib.now sampleWorld.st).2).2,
              sampleWorld.trace ++ [Effect.processDIDTime d]⟩)) :=
  ⟨(getDidParts_splits_at_last_delimiter "did:orb:cidhint:suffixB").2.1
      "did:orb:cidhint" "suffixB" rfl,
    (getDidParts_splits_at_last_delimiter "didorb").2.2 sampleLib sampleObserver sampleWorld
      _ rfl⟩

/-! ## Observer: further properties of one anchor -/

/-- The list of equivalent references of a submitted transaction holds an element twice
exactly when a discovery domain is configured and the anchor's hashlink is itself the alias
built for that domain: `processAnchor` removes no duplicate. -/
theorem Observer.equivalentReferences_nodup_iff {σ : Type} (lib : Lib σ) (o : Observer σ)
    (anchor : AnchorInfo) (info : Credential) (suffixes : List String) (w : World σ) :
    ∃ new, (o.processAnchor lib anchor info suffixes w).2.trace = w.trace ++ new ∧
      ∀ txn sfx res, Effect.process txn sfx res ∈ new →
        (txn.equivalentReferences.Nodup ↔
          ¬ (o.discoveryDomain ≠ "" ∧
            anchor.hashlink = "https:" ++ o.discoveryDomain ++ ":" ++ txn.canonicalReference)) := by
  obtain ⟨new, hnew, _, hproc⟩ := o.processAnchor_trace lib anchor info suffixes w
  refine ⟨new, hnew, fun txn sfx res hmem => ?_⟩
  obtain ⟨payload, v, st, pc, st1, canonicalID, _, _, _, hcan, rfl⟩ := hproc txn sfx res hmem
  by_cases hd : o.discoveryDomain = ""
  · simp [hd]
  · simp [hd]

/-- The loop of `processDID` posts nothing. -/
theorem Observer.processDIDAnchors_no_post {σ : Type} (lib : Lib σ) (o : Observer σ)
    (suffix : String) (anchors : List Anchor) (w : World σ) :
    ∃ new, (o.processDIDAnchors lib suffix anchors w).2.trace = w.trace ++ new ∧
      ∀ e ∈ new, e.isPost = false := by
  induction anchors generalizing w with
  | nil => exact ⟨[], by simp [Observer.processDIDAnchors], by simp⟩
  | cons anchor rest ih =>
    obtain ⟨new1, hnew1, hpost1, _⟩ :=
      o.processAnchor_trace lib anchor.toInfo anchor.info [suffix] w
    have hnone : ∀ e ∈ new1, e.isPost = false := by
      intro e he
      cases hp : e.isPost with
      | false => rfl
      | true => exact absurd rfl (hpost1 e he hp)
    unfold Observer.processDIDAnchors
    have hinfo : ({ hashlink := anchor.cid, localHashlink := "", attributedTo := "" } : AnchorInfo)
        = anchor.toInfo := rfl
    rw [hinfo]
    rcases hr : o.processAnchor lib anchor.toInfo anchor.info [suffix] w with ⟨r, w1⟩
    rw [hr] at hnew1
    simp only at hnew1
    obtain ⟨new2, hnew2, hpost2⟩ := ih w1
    have hboth : ∀ e ∈ new1 ++ new2, e.isPost = false := by
      intro e he
      rcases List.mem_append.mp he with h | h
      · exact hnone e h
      · exact hpost2 e h
    cases r with
    | none => exact ⟨new1 ++ new2, by rw [hnew2, hnew1, List.append_assoc], hboth⟩
    | some err =>
      by_cases ht : IsTransient err = true
      · simp only [ht, if_true]
        exact ⟨new1, hnew1, hnone⟩
      · simp only [ht, Bool.false_eq_true, if_false]
        exact ⟨new1 ++ new2, by rw [hnew2, hnew1, List.append_assoc], hboth⟩

/-- C13: whatever the DID and whatever the anchor graph, the processor and the index do,
the calls that `processDID` makes include no `Outbox.Post`. -/
theorem processDID_never_posts {σ : Type} (lib : Lib σ) (o : Observer σ) (did : String)
    (w : World σ) :
    ∃ new, (o.processDID lib did w).2.trace = w.trace ++ new ∧
      ∀ e ∈ new, e.isPost = false := by
  cases hparts : getDidParts did with
  | error err =>
    rw [o.processDID_parts_failed lib did w err hparts]
    exact ⟨_, rfl, by simp [Effect.isPost]⟩
  | ok parts =>
    obtain ⟨cid, suffix⟩ := parts
    rcases hget : o.providers.getDidAnchors cid suffix (lib.now w.st).2 with ⟨r, st2⟩
    cases r with
    | error err =>
      refine ⟨[Effect.getDidAnchors cid suffix (some err),
        Effect.processDIDTime ((lib.now st2).1 - (lib.now w.st).1)], ?_, by simp [Effect.isPost]⟩
      simp [Observer.processDID, hparts, hget]
    | ok anchors =>
      obtain ⟨new, hnew, hpost⟩ := o.processDIDAnchors_no_post lib suffix anchors
        ⟨st2, w.trace ++ [Effect.getDidAnchors cid suffix none]⟩
      rw [o.processDID_anchors lib did w cid suffix anchors st2 hparts hget _ rfl]
      refine ⟨Effect.getDidAnchors cid suffix none :: new ++ [Effect.processDIDTime
        ((lib.now (o.processDIDAnchors lib suffix anchors
          ⟨st2, w.trace ++ [Effect.getDidAnchors cid suffix none]⟩).2.st).1 - (lib.now w.st).1)],
        ?_, ?_⟩
      · simp only [hnew]
        simp
      · intro e he
        simp only [List.cons_append, List.mem_cons, List.mem_append, List.not_mem_nil,
          or_false] at he
        rcases he with rfl | he | rfl
        · rfl
        · exact hpost e he
        · rfl

/-- The calls `processAnchor` makes are calls of the processor, the index and the Outbox. -/
theorem Observer.processAnchor_kinds {σ : Type} (lib : Lib σ) (o : Observer σ)
    (anchor : AnchorInfo) (info : Credential) (suffixes : List String) (w : World σ) :
    ∃ new, (o.processAnchor lib anchor info suffixes w).2.trace = w.trace ++ new ∧
      ∀ e ∈ new, e.isProcess = true ∨ e.isPutBulk = true ∨ e.isPost = true := by
  rcases o.processAnchor_run lib anchor info suffixes w with
    ⟨_, _, htrace⟩ | ⟨payload, txn, v, st, hs, hrun⟩
  · exact ⟨[], by simpa using htrace, by simp⟩
  · rcases hrun with ⟨err, st3, _, hres⟩ | ⟨st3, err, st4, _, _, hres⟩ | ⟨st3, st4, _, _, hres⟩
    · exact ⟨_, by rw [hres], by simp [Effect.isProcess]⟩
    · exact ⟨_, by rw [hres], by simp [Effect.isProcess, Effect.isPutBulk]⟩
    · rcases o.postLikeActivity_trace lib anchor
        ⟨st4, w.trace ++ [Effect.process txn suffixes none,
          Effect.putBulk (getKeys payload.previousAnchors) anchor.hashlink none]⟩ with
        h | ⟨like, res, h, _⟩
      · exact ⟨_, by rw [hres, h], by simp [Effect.isProcess, Effect.isPutBulk]⟩
      · exact ⟨[Effect.process txn suffixes none,
          Effect.putBulk (getKeys payload.previousAnchors) anchor.hashlink none,
          Effect.post like res], by rw [hres, h]; simp,
          by simp [Effect.isProcess, Effect.isPutBulk, Effect.isPost]⟩

/-- C14, as the code behaves: on every path `handleAnchor` reports exactly one
`ProcessAnchorTime` sample, as its last call, but the value reported is the difference of
the two readings of the clock made before the credential is read (the argument of the
deferred call is evaluated when the `defer` statement runs).  On the anchor of the scenario,
with a clock that advances by one at each call, the sample is 1 although nine calls were
made before the method returned (ten with the metric itself); `processDID`, which defers a
closure, reports 6 for the six calls it made. -/
theorem processAnchorTime_evaluated_at_defer :
    (∀ {σ : Type} (lib : Lib σ) (o : Observer σ) (anchor : AnchorInfo) (w : World σ),
      ∃ new, (o.handleAnchor lib anchor w).2.trace = w.trace ++ new ++
          [Effect.processAnchorTime ((lib.now (lib.now w.st).2).1 - (lib.now w.st).1)] ∧
        ∀ d, Effect.processAnchorTime d ∉ new) ∧
    (sampleObserver.handleAnchor sampleLib sampleAnchor sampleWorld).2.trace.getLast?
      = some (Effect.processAnchorTime 1) ∧
    (sampleObserver.handleAnchor sampleLib sampleAnchor sampleWorld).2.st = 10 ∧
    (sampleObserver.processDID sampleLib "did:orb:cidhint:suffixB" sampleWorld).2.trace.getLast?
      = some (Effect.processDIDTime 6) := by
  refine ⟨?_, by decide, by decide, by decide⟩
  intro σ lib o anchor w
  rcases hread : o.providers.read anchor.hashlink (lib.now (lib.now w.st).2).2 with ⟨r, st3⟩
  cases r with
  | error err =>
    rw [o.handleAnchor_read_failed lib anchor w err st3 hread]
    exact ⟨[Effect.read anchor.hashlink (some err)], rfl, by simp⟩
  | ok cred =>
    rw [o.handleAnchor_read_ok lib anchor w cred st3 hread]
    obtain ⟨new, hnew, hkinds⟩ := o.processAnchor_kinds lib anchor cred []
      ⟨st3, w.trace ++ [Effect.read anchor.hashlink none]⟩
    refine ⟨Effect.read anchor.hashlink none :: new, ?_, ?_⟩
    · simp only [hnew]
      simp
    · intro d hd
      rcases List.mem_cons.mp hd with h | h
      · cases h
      · rcases hkinds _ h with hk | hk | hk <;> simp [Effect.isProcess, Effect.isPutBulk,
          Effect.isPost] at hk

/-! ## Observer: re-delivery -/

theorem Index.putBulk_idem (index : Index) (dids : List String) (cid : String) :
    (index.putBulk dids cid).putBulk dids cid = index.putBulk dids cid := by
  funext suffix
  by_cases h : suffix ∈ dids <;> simp [Index.putBulk, h]

theorem Index.after_append (index : Index) (l l' : List Effect) :
    index.after (l ++ l') = (index.after l).after l' := by
  induction l generalizing index with
  | nil => rfl
  | cons e rest ih =>
    cases e with
    | putBulk dids cid err =>
      cases err with
      | none => simpa [Index.after] using ih _
      | some _ => simpa [Index.after] using ih _
    | _ => simpa [Index.after] using ih _

theorem Index.after_filter (index : Index) (l : List Effect) :
    index.after (l.filter Effect.isPutBulk) = index.after l := by
  induction l generalizing index with
  | nil => rfl
  | cons e rest ih =>
    cases e with
    | putBulk dids cid err =>
      cases err with
      | none => simpa [Index.after, Effect.isPutBulk] using ih _
      | some _ => simpa [Index.after, Effect.isPutBulk] using ih _
    | _ => simpa [Index.after, Effect.isPutBulk] using ih _

theorem Index.putBulk_perm (index : Index) (dids dids' : List String) (cid : String)
    (h : dids'.Perm dids) : index.putBulk dids' cid = index.putBulk dids cid := by
  funext suffix
  simp only [Index.putBulk, h.mem_iff]

/-- Applying the index update of a run a second time changes nothing. -/
theorem Index.after_twice (index : Index) (l l' : List Effect) (h : SameIndexUpdate l l') :
    index.after (l ++ l') = index.after l := by
  rw [Index.after_append, ← Index.after_filter _ l', ← Index.after_filter index l]
  rcases h with ⟨h1, h2⟩ | ⟨dids, dids', cid, res, h1, h2, hperm⟩
  · rw [h1, h2]
    rfl
  · rw [h1, h2]
    cases res with
    | none =>
      simp only [Index.after]
      rw [Index.putBulk_perm _ _ _ _ hperm, Index.putBulk_idem]
    | some _ => rfl

/-- The calls of `postLikeActivity` include no index update. -/
theorem Observer.postLikeActivity_no_putBulk {σ : Type} (lib : Lib σ) (o : Observer σ)
    (anchor : AnchorInfo) (w : World σ) :
    ∃ posts, (o.postLikeActivity lib anchor w).2.trace = w.trace ++ posts ∧
      posts.filter Effect.isPutBulk = [] := by
  rcases o.postLikeActivity_trace lib anchor w with h | ⟨like, res, h, _⟩
  · exact ⟨[], by simpa using h, rfl⟩
  · exact ⟨[Effect.post like res], h, rfl⟩

/-- With deterministic collaborators, a later delivery of `processAnchor` has the same
outcome and makes the same index update, from whatever world it is run. -/
theorem Observer.processAnchor_redelivered {σ : Type} (lib lib' : Lib σ) (o : Observer σ)
    (anchor : AnchorInfo) (info : Credential) (suffixes : List String) (w w' : World σ)
    (hdet : o.providers.Deterministic) (hre : lib.Redelivers lib') :
    ∃ new new', (o.processAnchor lib anchor info suffixes w).2.trace = w.trace ++ new ∧
      (o.processAnchor lib' anchor info suffixes w').2.trace = w'.trace ++ new' ∧
      SameIndexUpdate new new' ∧
      (o.processAnchor lib' anchor info suffixes w').1
        = (o.processAnchor lib anchor info suffixes w).1 := by
  obtain ⟨_, hdns, hdver, hdproc, hdput⟩ := hdet
  obtain ⟨hhash, hstring, hdecode⟩ := hre
  cases hsub : lib.getAnchorSubject info with
  | error err =>
    have hsub' := (hdecode info).1 err hsub
    refine ⟨[], [], ?_, ?_, Or.inl ⟨rfl, rfl⟩, ?_⟩ <;>
      simp [Observer.processAnchor, hsub, hsub']
  | ok payload =>
    obtain ⟨payload', hsub', hcount, hcore, hns, hver, hperm⟩ := (hdecode info).2 payload hsub
    obtain ⟨count, core, ns, version, anchors⟩ := payload
    obtain ⟨count', core', ns', version', anchors'⟩ := payload'
    simp only at hcount hcore hns hver hperm
    subst hcount hcore hns hver
    rcases h1 : o.providers.forNamespace ns' w.st with ⟨r1, st1⟩
    rcases h1' : o.providers.forNamespace ns' w'.st with ⟨r1', st1'⟩
    have e1 : r1' = r1 := by
      have := hdns ns' w'.st w.st
      rw [h1, h1'] at this
      exact this
    subst e1
    cases r1' with
    | error err =>
      refine ⟨[], [], ?_, ?_, Or.inl ⟨rfl, rfl⟩, ?_⟩ <;>
        simp [Observer.processAnchor, hsub, hsub', h1, h1']
    | ok pc =>
      rcases h2 : o.providers.getVersion pc version' st1 with ⟨r2, st2⟩
      rcases h2' : o.providers.getVersion pc version' st1' with ⟨r2', st2'⟩
      have e2 : r2' = r2 := by
        have := hdver pc version' st1' st1
        rw [h2, h2'] at this
        exact this
      subst e2
      cases r2' with
      | error err =>
        refine ⟨[], [], ?_, ?_, Or.inl ⟨rfl, rfl⟩, ?_⟩ <;>
          simp [Observer.processAnchor, hsub, hsub', h1, h1', h2, h2']
      | ok v =>
        cases hcan : lib.getResourceHashFromHashLink anchor.hashlink with
        | error err =>
          have hcan' : lib'.getResourceHashFromHashLink anchor.hashlink = Except.error err := by
            rw [hhash]; exact hcan
          refine ⟨[], [], ?_, ?_, Or.inl ⟨rfl, rfl⟩, ?_⟩ <;>
            simp [Observer.processAnchor, hsub, hsub', h1, h1', h2, h2', hcan, hcan']
        | ok canonicalID =>
          have hcan' : lib'.getResourceHashFromHashLink anchor.hashlink
              = Except.ok canonicalID := by
            rw [hhash]; exact hcan
          obtain ⟨txn, hs, hs'⟩ : ∃ txn,
              o.Submits lib anchor info w ⟨count', core', ns', version', anchors⟩ txn v st2 ∧
              o.Submits lib' anchor info w' ⟨count', core', ns', version', anchors'⟩ txn v st2' :=
            ⟨_, ⟨pc, st1, canonicalID, hsub, h1, h2, hcan, rfl⟩,
              ⟨pc, st1', canonicalID, hsub', h1', h2', hcan', by rw [hstring]⟩⟩
          rcases h3 : o.providers.process v txn suffixes st2 with ⟨r3, st3⟩
          rcases h3' : o.providers.process v txn suffixes st2' with ⟨r3', st3'⟩
          have e3 : r3' = r3 := by
            have := hdproc v txn suffixes st2' st2
            rw [h3, h3'] at this
            exact this
          subst e3
          cases r3' with
          | some err =>
            rw [hs.process_failed suffixes err h3, hs'.process_failed suffixes err h3']
            exact ⟨_, _, rfl, rfl, Or.inl ⟨rfl, rfl⟩, rfl⟩
          | none =>
            have hkeys : (getKeys anchors').Perm (getKeys anchors) := hperm.map Prod.fst
            rcases h4 : o.providers.putBulk (getKeys anchors) anchor.hashlink st3 with ⟨r4, st4⟩
            rcases h4' : o.providers.putBulk (getKeys anchors') anchor.hashlink st3'
              with ⟨r4', st4'⟩
            have e4 : r4' = r4 := by
              have := hdput (getKeys anchors) (getKeys anchors') anchor.hashlink st3 st3' hkeys
              rw [h4, h4'] at this
              exact this
            subst e4
            cases r4' with
            | some err =>
              rw [hs.putBulk_failed suffixes err h3 h4, hs'.putBulk_failed suffixes err h3' h4']
              exact ⟨_, _, rfl, rfl,
                Or.inr ⟨getKeys anchors, getKeys anchors', anchor.hashlink, some err, rfl, rfl,
                  hkeys⟩, rfl⟩
            | none =>
              rw [hs.done suffixes h3 h4, hs'.done suffixes h3' h4']
              obtain ⟨posts, hposts, hnone⟩ := o.postLikeActivity_no_putBulk lib anchor
                ⟨st4, w.trace ++ [Effect.process txn suffixes none,
                  Effect.putBulk (getKeys anchors) anchor.hashlink none]⟩
              obtain ⟨posts', hposts', hnone'⟩ := o.postLikeActivity_no_putBulk lib' anchor
                ⟨st4', w'.trace ++ [Effect.process txn suffixes none,
                  Effect.putBulk (getKeys anchors') anchor.hashlink none]⟩
              refine ⟨[Effect.process txn suffixes none,
                  Effect.putBulk (getKeys anchors) anchor.hashlink none] ++ posts,
                [Effect.process txn suffixes none,
                  Effect.putBulk (getKeys anchors') anchor.hashlink none] ++ posts',
                by rw [hposts]; simp, by rw [hposts']; simp, ?_, rfl⟩
              refine Or.inr ⟨getKeys anchors, getKeys anchors', anchor.hashlink, none, ?_, ?_,
                hkeys⟩
              · simp [List.filter_cons, Effect.isPutBulk, hnone]
              · simp [List.filter_cons, Effect.isPutBulk, hnone']

/-- Calls before and after a run that are no index updates do not change the index update
the run makes. -/
theorem SameIndexUpdate.frame {new new' : List Effect} (h : SameIndexUpdate new new')
    (first last first' last' : Effect) (hf : first.isPutBulk = false)
    (hl : last.isPutBulk = false) (hf' : first'.isPutBulk = false)
    (hl' : last'.isPutBulk = false) :
    SameIndexUpdate (first :: new ++ [last]) (first' :: new' ++ [last']) := by
  have e : (first :: new ++ [last]).filter Effect.isPutBulk = new.filter Effect.isPutBulk := by
    simp [List.filter_cons, List.filter_append, hf, hl]
  have e' : (first' :: new' ++ [last']).filter Effect.isPutBulk
      = new'.filter Effect.isPutBulk := by
    simp [List.filter_cons, List.filter_append, hf', hl']
  unfold SameIndexUpdate
  rw [e, e']
  exact h

/-- With deterministic collaborators, a later delivery of `handleAnchor` has the same
outcome and makes the same index update, from whatever world it is run. -/
theorem Observer.handleAnchor_redelivered {σ : Type} (lib lib' : Lib σ) (o : Observer σ)
    (anchor : AnchorInfo) (w w' : World σ) (hdet : o.providers.Deterministic)
    (hre : lib.Redelivers lib') :
    ∃ new new', (o.handleAnchor lib anchor w).2.trace = w.trace ++ new ∧
      (o.handleAnchor lib' anchor w').2.trace = w'.trace ++ new' ∧
      SameIndexUpdate new new' ∧
      (o.handleAnchor lib' anchor w').1 = (o.handleAnchor lib anchor w).1 := by
  rcases hr : o.providers.read anchor.hashlink (lib.now (lib.now w.st).2).2 with ⟨r, st3⟩
  rcases hr' : o.providers.read anchor.hashlink (lib'.now (lib'.now w'.st).2).2 with ⟨r', st3'⟩
  have e : r' = r := by
    have := hdet.1 anchor.hashlink (lib'.now (lib'.now w'.st).2).2 (lib.now (lib.now w.st).2).2
    rw [hr, hr'] at this
    exact this
  subst e
  cases r' with
  | error err =>
    rw [o.handleAnchor_read_failed lib anchor w err st3 hr,
      o.handleAnchor_read_failed lib' anchor w' err st3' hr']
    exact ⟨_, _, List.append_assoc _ _ _, List.append_assoc _ _ _, Or.inl ⟨rfl, rfl⟩, rfl⟩
  | ok cred =>
    rw [o.handleAnchor_read_ok lib anchor w cred st3 hr,
      o.handleAnchor_read_ok lib' anchor w' cred st3' hr']
    obtain ⟨new, new', hnew, hnew', hsame, hres⟩ :=
      o.processAnchor_redelivered lib lib' anchor cred []
        ⟨st3, w.trace ++ [Effect.read anchor.hashlink none]⟩
        ⟨st3', w'.trace ++ [Effect.read anchor.hashlink none]⟩ hdet hre
    refine ⟨Effect.read anchor.hashlink none :: new ++
        [Effect.processAnchorTime ((lib.now (lib.now w.st).2).1 - (lib.now w.st).1)],
      Effect.read anchor.hashlink none :: new' ++
        [Effect.processAnchorTime ((lib'.now (lib'.now w'.st).2).1 - (lib'.now w'.st).1)],
      ?_, ?_, hsame.frame _ _ _ _ rfl rfl rfl rfl, hres⟩
    · simp only [hnew]
      simp
    · simp only [hnew']
      simp

/-- C17: with deterministic collaborators, when an anchor is delivered to `handleAnchor` a
second time (the credential is read and decoded anew, and the keys of `PreviousAnchors` may
be visited in another order), the second run makes the same index update as the first: a
`PutBulk` call for the same anchor reference, with the same suffixes and the same outcome,
or no call if the first made none.  The DID-anchor index after the two runs is the index
after the first, and the second run succeeds whenever the first did. -/
theorem handleAnchor_redelivery_idempotent {σ : Type} (lib lib' : Lib σ) (o : Observer σ)
    (anchor : AnchorInfo) (w : World σ) (hdet : o.providers.Deterministic)
    (hre : lib.Redelivers lib') :
    ∃ new1 new2, (o.handleAnchor lib anchor w).2.trace = w.trace ++ new1 ∧
      (o.handleAnchor lib' anchor (o.handleAnchor lib anchor w).2).2.trace
        = w.trace ++ new1 ++ new2 ∧
      SameIndexUpdate new1 new2 ∧
      (∀ index : Index, index.after (new1 ++ new2) = index.after new1) ∧
      ((o.handleAnchor lib anchor w).1 = none →
        (o.handleAnchor lib' anchor (o.handleAnchor lib anchor w).2).1 = none) := by
  obtain ⟨new1, new2, h1, h2, hsame, hres⟩ :=
    o.handleAnchor_redelivered lib lib' anchor w (o.handleAnchor lib anchor w).2 hdet hre
  refine ⟨new1, new2, h1, by rw [h2, h1], hsame,
    fun index => Index.after_twice index new1 new2 hsame, fun h => by rw [hres]; exact h⟩

/-- Witness of C17: an anchor with two suffixes is delivered twice and the second run visits
the keys in the other order; the first run updates the index with `[suffixA, suffixB]`, the
second with `[suffixB, suffixA]`, and the index is the same after both. -/
theorem handleAnchor_redelivery_idempotent_witness :
    (sampleObserver.handleAnchor twoKeyLib sampleAnchor sampleWorld).2.trace.filter
        Effect.isPutBulk = [Effect.putBulk ["suffixA", "suffixB"] "hl:abc" none] ∧
      (sampleObserver.handleAnchor twoKeyLibReordered sampleAnchor
          (sampleObserver.handleAnchor twoKeyLib sampleAnchor sampleWorld).2).2.trace.filter
        Effect.isPutBulk = [Effect.putBulk ["suffixA", "suffixB"] "hl:abc" none,
          Effect.putBulk ["suffixB", "suffixA"] "hl:abc" none] ∧
      ∃ new1 new2, (sampleObserver.handleAnchor twoKeyLib sampleAnchor sampleWorld).2.trace
          = sampleWorld.trace ++ new1 ∧
        (sampleObserver.handleAnchor twoKeyLibReordered sampleAnchor
          (sampleObserver.handleAnchor twoKeyLib sampleAnchor sampleWorld).2).2.trace
          = sampleWorld.trace ++ new1 ++ new2 ∧
        SameIndexUpdate new1 new2 ∧
        (∀ index : Index, index.after (new1 ++ new2) = index.after new1) ∧
        ((sampleObserver.handleAnchor twoKeyLib sampleAnchor sampleWorld).1 = none →
          (sampleObserver.handleAnchor twoKeyLibReordered sampleAnchor
            (sampleObserver.handleAnchor twoKeyLib sampleAnchor sampleWorld).2).1 = none) :=
  ⟨by decide, by decide,
    handleAnchor_redelivery_idempotent twoKeyLib twoKeyLibReordered sampleObserver sampleAnchor
      sampleWorld
      ⟨fun _ _ _ => rfl, fun _ _ _ => rfl, fun _ _ _ _ => rfl, fun _ _ _ _ _ => rfl,
        fun _ _ _ _ _ _ => rfl⟩
      ⟨rfl, rfl, fun _ =>
        ⟨fun _ h => (by cases h),
          fun _ h => by cases h; exact ⟨_, rfl, rfl, rfl, rfl, rfl, List.Perm.swap _ _ _⟩⟩⟩⟩

/-! ## VC-status store: reading a status -/

namespace Vcstatus

/-- An error of the scan is a transient report of a storage failure or a decoding error. -/
theorem Store.scan_error (s : Store) (env : Storage.Env) (vcID expr : String)
    (l : List Bytes) (i : Nat) (cur : VCStatus) (err : Err)
    (h : s.scan env vcID l i cur = Except.error err) :
    (∃ text e, err = NewTransient (Err.wrap text e) ∧ StorageFailure env expr e) ∨
      ∃ e, err = Err.wrap "unmarshal status" e := by
  induction l generalizing i cur with
  | nil => simp [Store.scan] at h
  | cons v rest ih =>
    unfold Store.scan at h
    cases hval : env.value i with
    | some e =>
      simp only [hval, Except.error.injEq] at h
      exact Or.inl ⟨_, e, h.symm, Or.inr ⟨i, Or.inr hval⟩⟩
    | none =>
      simp only [hval] at h
      cases hdec : s.unmarshal v cur with
      | error e =>
        simp only [hdec, Except.error.injEq] at h
        exact Or.inr ⟨e, h.symm⟩
      | ok status =>
        simp only [hdec] at h
        by_cases hdone : status = VCStatusCompleted
        · simp [hdone] at h
        · simp only [hdone, if_false] at h
          cases hnext : env.next (i + 1) with
          | some e =>
            simp only [hnext, Except.error.injEq] at h
            exact Or.inl ⟨_, e, h.symm, Or.inr ⟨i + 1, Or.inl hnext⟩⟩
          | none =>
            simp only [hnext] at h
            exact ih (i + 1) status h

/-- Without storage failure and without completed event the scan ends with the status of
the last event. -/
theorem Store.scan_last (s : Store) (env : Storage.Env) (vcID : String)
    (hnext : ∀ i, env.next i = none) (hvalue : ∀ i, env.value i = none)
    (values : List Bytes) (statuses : List VCStatus)
    (hdec : List.Forall₂ (fun v status => ∀ cur, s.unmarshal v cur = Except.ok status)
      values statuses)
    (hnone : ∀ status ∈ statuses, status ≠ VCStatusCompleted) (i : Nat) (cur : VCStatus) :
    s.scan env vcID values i cur = Except.ok (statuses.getLast?.getD cur) := by
  induction hdec generalizing i cur with
  | nil => rfl
  | @cons v status values statuses hv _ ih =>
    unfold Store.scan
    have hne : status ≠ VCStatusCompleted := hnone status (List.mem_cons_self _ _)
    simp only [hvalue i, hv cur, hne, if_false, hnext (i + 1)]
    rw [ih (fun st hst => hnone st (List.mem_cons_of_mem _ hst)) (i + 1) status]
    cases statuses with
    | nil => rfl
    | cons st rest => simp [List.getLast?_cons_cons, List.getLast?_eq_getLast]

/-- While the storage does not fail and no event is completed, the scan moves on to the
events that follow. -/
theorem Store.scan_prefix (s : Store) (env : Storage.Env) (vcID : String)
    (start : List Bytes) (statuses : List VCStatus) (rest : List Bytes)
    (hdec : List.Forall₂ (fun v status => ∀ cur, s.unmarshal v cur = Except.ok status)
      start statuses)
    (hnone : ∀ status ∈ statuses, status ≠ VCStatusCompleted) (i : Nat) (cur : VCStatus)
    (hfine : ∀ j, j < start.length → env.value (i + j) = none ∧ env.next (i + j + 1) = none) :
    s.scan env vcID (start ++ rest) i cur
      = s.scan env vcID rest (i + start.length) (statuses.getLast?.getD cur) := by
  induction hdec generalizing i cur with
  | nil => rfl
  | @cons v status start statuses hv _ ih =>
    have hne : status ≠ VCStatusCompleted := hnone status (List.mem_cons_self _ _)
    have h0 := hfine 0 (by simp)
    simp only [Nat.add_zero] at h0
    rw [List.cons_append]
    conv => lhs; unfold Store.scan
    simp only [h0.1, hv cur, hne, if_false, h0.2]
    rw [ih (fun st hst => hnone st (List.mem_cons_of_mem _ hst)) (i + 1) status
      (fun j hj => by
        have := hfine (j + 1) (by simp; omega)
        rw [show i + (j + 1) = i + 1 + j by omega] at this
        exact this)]
    have hlen : i + 1 + start.length = i + (v :: start).length := by simp; omega
    rw [hlen]
    cases statuses with
    | nil => rfl
    | cons st more => simp [List.getLast?_cons_cons, List.getLast?_eq_getLast]

/-- When the query and the first `Next()` succeed and there are results, `GetStatus` is the
scan of the results. -/
theorem Store.getStatus_scan (s : Store) (env : Storage.Env) (vcID : String)
    (hq : env.query (index ++ ":" ++ Base64.rawURLEncodeToString vcID) = none)
    (hn : env.next 0 = none) (v : Bytes) (rest : List Bytes)
    (hres : env.order (Storage.matching (index ++ ":" ++ Base64.rawURLEncodeToString vcID)
      s.store.records) = v :: rest) :
    s.GetStatus env vcID = s.scan env vcID (v :: rest) 0 "" := by
  simp only [Store.GetStatus, Storage.Store.query, hq, hn, hres]

/-- C18: `GetStatus` reports a failure of the query as a transient error, and every error it
returns is a transient report of a storage failure, the "status not found" error or a
decoding error; when the query selects no event (and the storage does not fail) the result
is the "status not found" error, which is not transient; when the scan visits events none
of which is completed (and neither the storage nor the decoding fails) the result is the
status of the last event visited.  A failure of the iterator is reported as a transient
error: the failure of the first `Next()`, and, once the scan has passed the events before
it without finding a completed one, the failure of `Value()` on an event or of the `Next()`
that follows it (also after the last event). -/
theorem getStatus_without_completed (s : Store) (env : Storage.Env) (vcID : String) :
    (∀ e, env.query (index ++ ":" ++ Base64.rawURLEncodeToString vcID) = some e →
      ∃ text, s.GetStatus env vcID = Except.error (NewTransient (Err.wrap text e))) ∧
    (∀ err, s.GetStatus env vcID = Except.error err →
      (∃ text e, err = NewTransient (Err.wrap text e) ∧
        StorageFailure env (index ++ ":" ++ Base64.rawURLEncodeToString vcID) e) ∨
      err = Err.leaf ("status not found for vcID: " ++ vcID) ∨
      ∃ e, err = Err.wrap "unmarshal status" e) ∧
    (env.query (index ++ ":" ++ Base64.rawURLEncodeToString vcID) = none →
      env.next 0 = none →
      (∀ l, (env.order l).Perm l) →
      Storage.matching (index ++ ":" ++ Base64.rawURLEncodeToString vcID) s.store.records = [] →
      s.GetStatus env vcID = Except.error (Err.leaf ("status not found for vcID: " ++ vcID)) ∧
        IsTransient (Err.leaf ("status not found for vcID: " ++ vcID)) = false) ∧
    (∀ (statuses : List VCStatus) (last : VCStatus),
      env.query (index ++ ":" ++ Base64.rawURLEncodeToString vcID) = none →
      (∀ i, env.next i = none) → (∀ i, env.value i = none) →
      List.Forall₂ (fun v status => ∀ cur, s.unmarshal v cur = Except.ok status)
        (env.order (Storage.matching (index ++ ":" ++ Base64.rawURLEncodeToString vcID)
          s.store.records)) statuses →
      (∀ status ∈ statuses, status ≠ VCStatusCompleted) →
      statuses.getLast? = some last →
      s.GetStatus env vcID = Except.ok last) ∧
    (∀ e, env.query (index ++ ":" ++ Base64.rawURLEncodeToString vcID) = none →
      env.next 0 = some e →
      ∃ text, s.GetStatus env vcID = Except.error (NewTransient (Err.wrap text e)) ∧
        IsTransient (NewTransient (Err.wrap text e)) = true) ∧
    (∀ (start : List Bytes) (v : Bytes) (rest : List Bytes) (statuses : List VCStatus) (e : Err),
      env.query (index ++ ":" ++ Base64.rawURLEncodeToString vcID) = none →
      env.next 0 = none →
      env.order (Storage.matching (index ++ ":" ++ Base64.rawURLEncodeToString vcID)
        s.store.records) = start ++ v :: rest →
      List.Forall₂ (fun v status => ∀ cur, s.unmarshal v cur = Except.ok status)
        start statuses →
      (∀ status ∈ statuses, status ≠ VCStatusCompleted) →
      (∀ j, j < start.length → env.value j = none ∧ env.next (j + 1) = none) →
      env.value start.length = some e →
      ∃ text, s.GetStatus env vcID = Except.error (NewTransient (Err.wrap text e)) ∧
        IsTransient (NewTransient (Err.wrap text e)) = true) ∧
    (∀ (start : List Bytes) (v : Bytes) (rest : List Bytes) (statuses : List VCStatus)
      (status : VCStatus) (e : Err),
      env.query (index ++ ":" ++ Base64.rawURLEncodeToString vcID) = none →
      env.next 0 = none →
      env.order (Storage.matching (index ++ ":" ++ Base64.rawURLEncodeToString vcID)
        s.store.records) = start ++ v :: rest →
      List.Forall₂ (fun v status => ∀ cur, s.unmarshal v cur = Except.ok status)
        start statuses →
      (∀ status ∈ statuses, status ≠ VCStatusCompleted) →
      (∀ j, j < start.length → env.value j = none ∧ env.next (j + 1) = none) →
      env.value start.length = none →
      (∀ cur, s.unmarshal v cur = Except.ok status) → status ≠ VCStatusCompleted →
      env.next (start.length + 1) = some e →
      ∃ text, s.GetStatus env vcID = Except.error (NewTransient (Err.wrap text e)) ∧
        IsTransient (NewTransient (Err.wrap text e)) = true) := by
  refine ⟨?_, ?_, ?_, ?_, ?_, ?_, ?_⟩
  · intro e hq
    simp only [Store.GetStatus, Storage.Store.query, hq]
    exact ⟨_, rfl⟩
  · intro err h
    unfold Store.GetStatus at h
    simp only [Storage.Store.query] at h
    cases hq : env.query (index ++ ":" ++ Base64.rawURLEncodeToString vcID) with
    | some e =>
      simp only [hq, Except.error.injEq] at h
      exact Or.inl ⟨_, e, h.symm, Or.inl hq⟩
    | none =>
      simp only [hq] at h
      cases hn : env.next 0 with
      | some e =>
        simp only [hn, Except.error.injEq] at h
        exact Or.inl ⟨_, e, h.symm, Or.inr ⟨0, Or.inl hn⟩⟩
      | none =>
        simp only [hn] at h
        cases hres : env.order (Storage.matching
            (index ++ ":" ++ Base64.rawURLEncodeToString vcID) s.store.records) with
        | nil =>
          simp only [hres, Except.error.injEq] at h
          exact Or.inr (Or.inl h.symm)
        | cons v rest =>
          simp only [hres] at h
          rcases Store.scan_error s env vcID _ _ 0 "" err h with h' | h'
          · exact Or.inl h'
          · exact Or.inr (Or.inr h')
  · intro hq hn horder hnone
    have hres : env.order (Storage.matching
        (index ++ ":" ++ Base64.rawURLEncodeToString vcID) s.store.records) = [] := by
      rw [hnone]
      exact List.Perm.eq_nil (horder [])
    simp only [Store.GetStatus, Storage.Store.query, hq, hn, hres]
    exact ⟨trivial, rfl⟩
  · intro statuses last hq hnext hvalue hdec hnone hlast
    unfold Store.GetStatus
    simp only [Storage.Store.query, hq, hnext 0]
    cases hres : env.order (Storage.matching
        (index ++ ":" ++ Base64.rawURLEncodeToString vcID) s.store.records) with
    | nil =>
      rw [hres] at hdec
      cases hdec
      simp at hlast
    | cons v rest =>
      simp only []
      rw [← hres, Store.scan_last s env vcID hnext hvalue _ statuses hdec hnone 0 "", hlast]
      rfl
  · intro e hq hn
    simp only [Store.GetStatus, Storage.Store.query, hq, hn]
    exact ⟨_, rfl, rfl⟩
  · intro start v rest statuses e hq hn hres hdec hnone hfine hval
    obtain ⟨v0, rest0, hshape⟩ : ∃ v0 rest0, start ++ v :: rest = v0 :: rest0 := by
      cases start with
      | nil => exact ⟨v, rest, rfl⟩
      | cons x xs => exact ⟨x, xs ++ v :: rest, rfl⟩
    rw [Store.getStatus_scan s env vcID hq hn v0 rest0 (hres.trans hshape), ← hshape,
      Store.scan_prefix s env vcID start statuses (v :: rest) hdec hnone 0 ""
        (fun j hj => by simpa using hfine j hj)]
    unfold Store.scan
    simp only [Nat.zero_add, hval]
    exact ⟨_, rfl, rfl⟩
  · intro start v rest statuses status e hq hn hres hdec hnone hfine hval hv hne hnext
    obtain ⟨v0, rest0, hshape⟩ : ∃ v0 rest0, start ++ v :: rest = v0 :: rest0 := by
      cases start with
      | nil => exact ⟨v, rest, rfl⟩
      | cons x xs => exact ⟨x, xs ++ v :: rest, rfl⟩
    rw [Store.getStatus_scan s env vcID hq hn v0 rest0 (hres.trans hshape), ← hshape,
      Store.scan_prefix s env vcID start statuses (v :: rest) hdec hnone 0 ""
        (fun j hj => by simpa using hfine j hj)]
    unfold Store.scan
    simp only [Nat.zero_add, hval, hv, hne, if_false, hnext]
    exact ⟨_, rfl, rfl⟩

/-- Witness of C18: two events, `in-process` then `queued`, are stored for `vc1`; the
status read back is that of the last one, and when `Value()` fails on the second event the
result is a transient error. -/
theorem getStatus_without_completed_witness :
    (Store.mk ⟨[⟨"u1", "in-process", [⟨"vcID", "dmMx"⟩]⟩, ⟨"u2", "queued", [⟨"vcID", "dmMx"⟩]⟩],
        []⟩ sampleStore.marshal sampleStore.unmarshal).GetStatus Storage.Env.reliable "vc1"
      = Except.ok "queued" ∧
      ∃ text, (Store.mk ⟨[⟨"u1", "in-process", [⟨"vcID", "dmMx"⟩]⟩,
            ⟨"u2", "queued", [⟨"vcID", "dmMx"⟩]⟩], []⟩
          sampleStore.marshal sampleStore.unmarshal).GetStatus brokenIteratorEnv "vc1"
          = Except.error (NewTransient (Err.wrap text (Err.leaf "read failed"))) ∧
        IsTransient (NewTransient (Err.wrap text (Err.leaf "read failed"))) = true :=
  ⟨(getStatus_without_completed
      (Store.mk ⟨[⟨"u1", "in-process", [⟨"vcID", "dmMx"⟩]⟩,
        ⟨"u2", "queued", [⟨"vcID", "dmMx"⟩]⟩], []⟩ sampleStore.marshal sampleStore.unmarshal)
      Storage.Env.reliable "vc1").2.2.2.1
      ["in-process", "queued"] "queued" rfl (fun _ => rfl) (fun _ => rfl)
      (List.Forall₂.cons (fun _ => rfl) (List.Forall₂.cons (fun _ => rfl) List.Forall₂.nil))
      (by decide) rfl,
    (getStatus_without_completed
      (Store.mk ⟨[⟨"u1", "in-process", [⟨"vcID", "dmMx"⟩]⟩,
        ⟨"u2", "queued", [⟨"vcID", "dmMx"⟩]⟩], []⟩ sampleStore.marshal sampleStore.unmarshal)
      brokenIteratorEnv "vc1").2.2.2.2.2.1
      ["in-process"] "queued" [] ["in-process"] (Err.leaf "read failed") rfl rfl rfl
      (List.Forall₂.cons (fun _ => rfl) List.Forall₂.nil) (by decide)
      (fun j hj => by
        have hj0 : j = 0 := by simpa using hj
        subst hj0
        exact ⟨rfl, rfl⟩)
      rfl⟩

end Vcstatus

/-! ## VC-status store: the tag of a credential -/

namespace Base64

set_option maxRecDepth 100000 in
theorem alphabet_nodup : alphabet.Nodup := by decide

theorem digit_inj (i j : Nat) (hi : i < 64) (hj : j < 64) (h : digit i = digit j) : i = j := by
  have hlen : alphabet.length = 64 := rfl
  unfold digit at h
  rw [List.getD_eq_getElem _ _ (by rw [hlen]; exact hi),
    List.getD_eq_getElem _ _ (by rw [hlen]; exact hj)] at h
  exact (List.Nodup.getElem_inj_iff alphabet_nodup).mp h

theorem utf8EncodeChar_append_inj (m n : Nat) (r1 r2 : List Nat)
    (h : utf8EncodeChar m ++ r1 = utf8EncodeChar n ++ r2) : m = n ∧ r1 = r2 := by
  unfold utf8EncodeChar at h
  split_ifs at h <;> simp only [List.cons_append, List.nil_append, List.cons.injEq] at h
  all_goals
    first
    | (obtain ⟨h1, h2⟩ := h; exfalso; omega)
    | (obtain ⟨h1, h2⟩ := h; exact ⟨by omega, h2⟩)
    | (obtain ⟨h1, h2, h3⟩ := h; exact ⟨by omega, h3⟩)
    | (obtain ⟨h1, h2, h3, h4⟩ := h; exact ⟨by omega, h4⟩)
    | (obtain ⟨h1, h2, h3, h4, h5⟩ := h; exact ⟨by omega, h5⟩)

theorem utf8EncodeChar_ne_nil (n : Nat) : utf8EncodeChar n ≠ [] := by
  unfold utf8EncodeChar
  split_ifs <;> simp

theorem utf8EncodeChar_lt (n : Nat) (hn : n < 0x110000) : ∀ x ∈ utf8EncodeChar n, x < 256 := by
  unfold utf8EncodeChar
  split_ifs <;> simp <;> omega

theorem char_toNat_lt (c : Char) : c.toNat < 0x110000 := by
  have h := c.valid
  unfold UInt32.isValidChar Nat.isValidChar at h
  have : c.toNat = c.val.toNat := rfl
  omega

theorem bytes_lt (s : String) : ∀ x ∈ bytes s, x < 256 := by
  intro x hx
  unfold bytes at hx
  obtain ⟨c, _, hc⟩ := List.mem_flatMap.mp hx
  exact utf8EncodeChar_lt _ (char_toNat_lt c) x hc

theorem flatMap_utf8_inj (l1 l2 : List Char)
    (h : l1.flatMap (fun c => utf8EncodeChar c.toNat) = l2.flatMap (fun c => utf8EncodeChar c.toNat)) :
    l1 = l2 := by
  induction l1 generalizing l2 with
  | nil =>
    cases l2 with
    | nil => rfl
    | cons c rest =>
      simp only [List.flatMap_nil, List.flatMap_cons] at h
      have := utf8EncodeChar_ne_nil c.toNat
      cases hc : utf8EncodeChar c.toNat with
      | nil => exact absurd hc this
      | cons x xs => rw [hc] at h; simp at h
  | cons c1 rest1 ih =>
    cases l2 with
    | nil =>
      simp only [List.flatMap_nil, List.flatMap_cons] at h
      have := utf8EncodeChar_ne_nil c1.toNat
      cases hc : utf8EncodeChar c1.toNat with
      | nil => exact absurd hc this
      | cons x xs => rw [hc] at h; simp at h
    | cons c2 rest2 =>
      simp only [List.flatMap_cons] at h
      obtain ⟨hc, hrest⟩ := utf8EncodeChar_append_inj _ _ _ _ h
      have hcc : c1 = c2 := Char.ext (UInt32.eq_of_val_eq (Fin.ext hc))
      rw [hcc, ih rest2 hrest]

theorem bytes_inj (a b : String) (h : bytes a = bytes b) : a = b :=
  String.ext (flatMap_utf8_inj _ _ h)

theorem encode_inj (a : List Nat) : ∀ (b : List Nat), (∀ x ∈ a, x < 256) → (∀ x ∈ b, x < 256) →
    encode a = encode b → a = b := by
  induction a using encode.induct with
  | case1 =>
    intro b _ _ h
    rcases b with _ | ⟨x, _ | ⟨y, _ | ⟨z, t⟩⟩⟩ <;> simp [encode] at h
    rfl
  | case2 a =>
    intro b ha hb h
    rcases b with _ | ⟨x, _ | ⟨y, _ | ⟨z, t⟩⟩⟩ <;> simp [encode] at h
    have ha' := ha a (by simp)
    have hx := hb x (by simp)
    have h1 := digit_inj _ _ (by omega) (by omega) h.1
    have h2 := digit_inj _ _ (by omega) (by omega) h.2
    have : a = x := by omega
    rw [this]
  | case3 a c =>
    intro b ha hb h
    rcases b with _ | ⟨x, _ | ⟨y, _ | ⟨z, t⟩⟩⟩ <;> simp [encode] at h
    have ha' := ha a (by simp)
    have hc' := ha c (by simp)
    have hx := hb x (by simp)
    have hy := hb y (by simp)
    have h1 := digit_inj _ _ (by omega) (by omega) h.1
    have h2 := digit_inj _ _ (by omega) (by omega) h.2.1
    have h3 := digit_inj _ _ (by omega) (by omega) h.2.2
    have e1 : a = x := by omega
    have e2 : c = y := by omega
    rw [e1, e2]
  | case4 a c d rest ih =>
    intro b ha hb h
    rcases b with _ | ⟨x, _ | ⟨y, _ | ⟨z, t⟩⟩⟩ <;> simp [encode] at h
    have ha' := ha a (by simp)
    have hc' := ha c (by simp)
    have hd' := ha d (by simp)
    have hx := hb x (by simp)
    have hy := hb y (by simp)
    have hz := hb z (by simp)
    have h1 := digit_inj _ _ (by omega) (by omega) h.1
    have h2 := digit_inj _ _ (by omega) (by omega) h.2.1
    have h3 := digit_inj _ _ (by omega) (by omega) h.2.2.1
    have h4 := digit_inj _ _ (by omega) (by omega) h.2.2.2.1
    have e1 : a = x := by omega
    have e2 : c = y := by omega
    have e3 : d = z := by omega
    have e4 : rest = t := ih t (fun v hv => ha v (by simp [hv])) (fun v hv => hb v (by simp [hv]))
      h.2.2.2.2
    rw [e1, e2, e3, e4]

theorem rawURLEncodeToString_inj (a b : String)
    (h : rawURLEncodeToString a = rawURLEncodeToString b) : a = b := by
  unfold rawURLEncodeToString at h
  exact bytes_inj a b (encode_inj _ _ (bytes_lt a) (bytes_lt b) (congrArg String.data h))
end Base64

namespace Vcstatus

/-- The scan depends on the store only through its decoding function. -/
theorem Store.scan_congr (s s' : Store) (env : Storage.Env) (vcID : String)
    (h : s'.unmarshal = s.unmarshal) (l : List Bytes) (i : Nat) (cur : VCStatus) :
    s'.scan env vcID l i cur = s.scan env vcID l i cur := by
  induction l generalizing i cur with
  | nil => rfl
  | cons v rest ih =>
    unfold Store.scan
    rw [h]
    cases env.value i with
    | some e => rfl
    | none =>
      simp only []
      cases s.unmarshal v cur with
      | error e => rfl
      | ok status =>
        simp only []
        by_cases hdone : status = VCStatusCompleted
        · simp [hdone]
        · simp only [hdone, if_false]
          cases env.next (i + 1) with
          | some e => rfl
          | none => exact ih (i + 1) status

/-- C19: the tag value derived from a vcID is injective; a successful `AddStatus(a, s)`
whose uuid is new appends one event and keeps every stored event; and for every vcID `b`
other than `a` the result of `GetStatus(b)` is the same after it as before. -/
theorem addStatus_isolated (s s' : Store) (envA : Storage.Env) (uuid a b : String)
    (status : VCStatus) (hne : a ≠ b)
    (hfresh : ∀ r ∈ s.store.records, r.key ≠ uuid)
    (hadd : s.AddStatus envA uuid a status = (none, s')) :
    Function.Injective Base64.rawURLEncodeToString ∧
      (∃ data, s'.store.records = s.store.records ++
        [⟨uuid, data, [⟨index, Base64.rawURLEncodeToString a⟩]⟩]) ∧
      ∀ env, s'.GetStatus env b = s.GetStatus env b := by
  obtain ⟨data, _, _, hu, hrec⟩ := Store.addStatus_ok hfresh hadd
  refine ⟨fun x y h => Base64.rawURLEncodeToString_inj x y h, ⟨data, hrec⟩, fun env => ?_⟩
  have htag : index ++ ":" ++ Base64.rawURLEncodeToString a
      ≠ index ++ ":" ++ Base64.rawURLEncodeToString b := by
    intro h
    have hdata := congrArg String.data h
    simp only [String.data_append, List.append_assoc] at hdata
    have := List.append_cancel_left (List.append_cancel_left hdata)
    exact hne (Base64.rawURLEncodeToString_inj a b (String.ext this))
  have hmatch : Storage.matching (index ++ ":" ++ Base64.rawURLEncodeToString b) s'.store.records
      = Storage.matching (index ++ ":" ++ Base64.rawURLEncodeToString b) s.store.records := by
    rw [hrec]
    simp [Storage.matching, List.filter_append, List.filter_cons, htag]
  unfold Store.GetStatus
  simp only [Storage.Store.query, hmatch]
  cases env.query (index ++ ":" ++ Base64.rawURLEncodeToString b) with
  | some e => rfl
  | none =>
    simp only []
    cases env.next 0 with
    | some e => rfl
    | none =>
      simp only []
      cases env.order (Storage.matching (index ++ ":" ++ Base64.rawURLEncodeToString b)
          s.store.records) with
      | nil => rfl
      | cons v rest => exact Store.scan_congr s s' env b hu _ 0 ""

/-- Witness of C19: `in-process` is recorded for `vc1`, then `completed` for `vc2`; the
status of `vc1` is read as before. -/
theorem addStatus_isolated_witness :
    Function.Injective Base64.rawURLEncodeToString ∧
      (∃ data, (Store.mk ⟨[⟨"u1", "in-process", [⟨"vcID", "dmMx"⟩]⟩,
            ⟨"u2", "completed", [⟨"vcID", "dmMy"⟩]⟩],
          [Storage.Write.put "u2" "completed" [⟨"vcID", "dmMy"⟩]]⟩
          sampleStore.marshal sampleStore.unmarshal).store.records =
        [⟨"u1", "in-process", [⟨"vcID", "dmMx"⟩]⟩] ++
          [⟨"u2", data, [⟨index, Base64.rawURLEncodeToString "vc2"⟩]⟩]) ∧
      ∀ env, (Store.mk ⟨[⟨"u1", "in-process", [⟨"vcID", "dmMx"⟩]⟩,
            ⟨"u2", "completed", [⟨"vcID", "dmMy"⟩]⟩],
          [Storage.Write.put "u2" "completed" [⟨"vcID", "dmMy"⟩]]⟩
          sampleStore.marshal sampleStore.unmarshal).GetStatus env "vc1" =
        (Store.mk ⟨[⟨"u1", "in-process", [⟨"vcID", "dmMx"⟩]⟩], []⟩
          sampleStore.marshal sampleStore.unmarshal).GetStatus env "vc1" :=
  addStatus_isolated
    (Store.mk ⟨[⟨"u1", "in-process", [⟨"vcID", "dmMx"⟩]⟩], []⟩
      sampleStore.marshal sampleStore.unmarshal) _ Storage.Env.reliable "u2" "vc2" "vc1"
    VCStatusCompleted (by decide) (by decide) rfl

end Vcstatus

/-! ## Document resolve handler -/

namespace Document

theorem startsWith_append (start rest : String) : startsWith (start ++ rest) start = true := by
  unfold startsWith
  rw [List.isPrefixOf_iff_prefix, String.data_append]
  exact List.prefix_append _ _

theorem drop_start (start rest : String) :
    String.mk ((start ++ rest).data.drop start.length) = rest := by
  apply String.ext
  show List.drop start.length (start ++ rest).data = rest.data
  rw [String.data_append]
  exact List.drop_left _ _

/-- Discovery is not requested for an identifier whose Orb suffix, as the handler computes
it, starts with the label of unpublished DIDs. -/
theorem ResolveHandler.requestDiscovery_unpublished {σ : Type} (r : ResolveHandler σ)
    (did ns rest : String) (w : World σ)
    (hdid : did = ns ++ delimiter ++ rest)
    (hns : r.getNamespace did = Except.ok ns)
    (hlabel : startsWith rest r.unpublishedDIDLabel = true) :
    r.requestDiscovery did w = w := by
  have hsuffix : String.mk (did.data.drop (ns ++ delimiter).length) = rest := by
    rw [hdid]
    exact drop_start (ns ++ delimiter) rest
  have hsome : r.getOrbSuffix did =
      if (split ':' rest.data).length < minOrbSuffixParts then
        Except.error (Err.leaf ("invalid number of parts for orb suffix[" ++ rest ++ "]"))
      else Except.ok rest := by
    have hdata : List.drop (ns ++ delimiter).length did.data = rest.data :=
      congrArg String.data hsuffix
    unfold ResolveHandler.getOrbSuffix
    rw [hns]
    simp only [hdata, hsuffix]
  unfold ResolveHandler.requestDiscovery
  rw [hsome]
  by_cases hparts : (split ':' rest.data).length < minOrbSuffixParts
  · simp only [hparts, if_true]
  · simp only [hparts, if_false, hlabel, if_true]

/-- C15: for a short-form DID that starts with the configured namespace, or with the alias
that the handler matches for it, followed by `:`, and whose remaining Orb suffix (what
follows that namespace and `:`, the suffix that `getOrbSuffix` computes) begins with the
label of unpublished DIDs, `ResolveDocument` makes no `RequestDiscovery` call, whatever the
core resolver returns, a "not found" error included. -/
theorem unpublished_not_discovered {σ : Type} (r : ResolveHandler σ) (did ns rest : String)
    (w : World σ)
    (hdid : did = ns ++ ":" ++ rest)
    (hns : ns = r.nameSpace ∨ r.getNamespace did = Except.ok ns)
    (hlabel : startsWith rest r.unpublishedDIDLabel = true) :
    (r.ResolveDocument did w).2.discoveries = w.discoveries := by
  have hmatch : r.getNamespace did = Except.ok ns := by
    rcases hns with h | h
    · subst h
      unfold ResolveHandler.getNamespace
      have : startsWith did (r.nameSpace ++ delimiter) = true := by
        rw [hdid]
        exact startsWith_append (r.nameSpace ++ delimiter) rest
      simp [this]
    · exact h
  unfold ResolveHandler.ResolveDocument
  rcases hcore : r.coreResolver did w.st with ⟨⟨response, err⟩, st⟩
  cases err with
  | none => rfl
  | some e =>
    simp only []
    by_cases hnf : contains e.Error "not found" = true
    · simp only [hnf, if_true]
      rw [r.requestDiscovery_unpublished did ns rest _ hdid hmatch hlabel]
    · simp only [hnf, Bool.false_eq_true, if_false]

/-- Witness of C15: an unpublished DID of the namespace `did:orb`, and one of the alias
`did:alias`, that the core resolver does not find. -/
theorem unpublished_not_discovered_witness :
    (sampleHandler.ResolveDocument "did:orb:uAAA:missing" ⟨0, []⟩).1
        = (none, some (Err.leaf "document not found")) ∧
      (sampleHandler.ResolveDocument "did:orb:uAAA:missing" ⟨0, []⟩).2.discoveries = [] ∧
      (sampleHandler.ResolveDocument "did:alias:uAAA:missing" ⟨0, []⟩).2.discoveries = [] :=
  ⟨by decide,
    unpublished_not_discovered sampleHandler "did:orb:uAAA:missing" "did:orb" "uAAA:missing"
      ⟨0, []⟩ (by decide) (Or.inl rfl) (by decide),
    unpublished_not_discovered sampleHandler "did:alias:uAAA:missing" "did:alias"
      "uAAA:missing" ⟨0, []⟩ (by decide) (Or.inr rfl) (by decide)⟩

/-- C16: `ResolveDocument` returns the result of the core resolver when it reports no error,
and no result together with the error of the core resolver when it reports one, whether or
not discovery is then requested and whatever `RequestDiscovery` returns. -/
theorem resolveDocument_returns_core_outcome {σ : Type} (r : ResolveHandler σ) (id : String)
    (w : World σ) :
    (∀ response st, r.coreResolver id w.st = ((response, none), st) →
      (r.ResolveDocument id w).1 = (response, none)) ∧
    (∀ response err st, r.coreResolver id w.st = ((response, some err), st) →
      (r.ResolveDocument id w).1 = (none, some err)) := by
  constructor
  · intro response st h
    simp only [ResolveHandler.ResolveDocument, h]
  · intro response err st h
    simp only [ResolveHandler.ResolveDocument, h]
    by_cases hnf : contains err.Error "not found" = true
    · simp only [hnf, if_true]
    · simp only [hnf, Bool.false_eq_true, if_false]

/-- Witness of C16: a known document is returned as it is, and for a missing one the "not
found" error is returned although the discovery that is then requested fails. -/
theorem resolveDocument_returns_core_outcome_witness :
    (sampleHandler.ResolveDocument "did:orb:uEiA:known" ⟨0, []⟩).1 = (some ⟨"doc"⟩, none) ∧
      (sampleHandler.ResolveDocument "did:orb:uEiB:missing" ⟨0, []⟩).1
        = (none, some (Err.leaf "document not found")) :=
  ⟨(resolveDocument_returns_core_outcome sampleHandler "did:orb:uEiA:known" ⟨0, []⟩).1
      (some ⟨"doc"⟩) 1 rfl,
    (resolveDocument_returns_core_outcome sampleHandler "did:orb:uEiB:missing" ⟨0, []⟩).2
      none (Err.leaf "document not found") 1 rfl⟩

end Document

end Orb
